import Mathlib

/-
Verification of the SmartPaste cross-platform sync engine (`SyncCore` and its
utility classes, from shared/docs/SYNC_ARCHITECTURE.md) against its
natural-language specification.

The engine's TypeScript is shallowly embedded in Lean:
* JS strings are `List Char` (`JStr`); JS `number` fields that the engine only
  ever creates and compares as integers (timestamps, versions, priorities) are
  `Int`; JSON-serializable payloads (`data: any`) are the inductive `Json`
  (numbers restricted to integers: no claim exercises float formatting).
* The platform builtins the engine calls are modelled by their standard
  behaviour: `JSON.stringify` / `JSON.parse` (with the escaping rules of the
  JSON spec; whitespace skipping is omitted since every parse in this
  development is of a canonical serializer output), and `btoa` / `atob`
  (WHATWG base64: `btoa` throws InvalidCharacterError on any code point above
  U+00FF, modelled as `none`).
* Stateful methods of `SyncCore` become pure functions from an explicit
  `SyncState` (plus the item-query view of the storage adapter where needed)
  to a new state, the list of events emitted during the call, and the list of
  provider `syncItem` calls issued, in order.  `Date.now()` and `generateId()`
  results are passed in as parameters.
-/

/-- JS strings, modelled as lists of unicode scalar values. -/
abbrev JStr := List Char

/-- Shorthand turning a Lean string literal into a `JStr`. -/
def js (s : String) : JStr := s.data

/-- JSON values: the universe of the engine's `data: any` payloads.  Numbers
are restricted to integers; object member lists keep insertion order, as JS
objects do. -/
inductive Json where
  | null : Json
  | bool (b : Bool) : Json
  | num (n : Int) : Json
  | str (s : JStr) : Json
  | arr (xs : List Json) : Json
  | obj (kvs : List (JStr × Json)) : Json

mutual

/-- Decidable equality for `Json` (the derive handler does not support this
nested inductive). -/
def Json.decEq : (a b : Json) → Decidable (a = b)
  | .null, .null => isTrue rfl
  | .bool x, .bool y =>
    match inferInstanceAs (Decidable (x = y)) with
    | isTrue h => isTrue (by rw [h])
    | isFalse h => isFalse (by intro hc; cases hc; exact h rfl)
  | .num x, .num y =>
    match inferInstanceAs (Decidable (x = y)) with
    | isTrue h => isTrue (by rw [h])
    | isFalse h => isFalse (by intro hc; cases hc; exact h rfl)
  | .str x, .str y =>
    match inferInstanceAs (Decidable (x = y)) with
    | isTrue h => isTrue (by rw [h])
    | isFalse h => isFalse (by intro hc; cases hc; exact h rfl)
  | .arr xs, .arr ys =>
    match Json.decEqList xs ys with
    | isTrue h => isTrue (by rw [h])
    | isFalse h => isFalse (by intro hc; cases hc; exact h rfl)
  | .obj xs, .obj ys =>
    match Json.decEqKVs xs ys with
    | isTrue h => isTrue (by rw [h])
    | isFalse h => isFalse (by intro hc; cases hc; exact h rfl)
  | .null, .bool _ | .null, .num _ | .null, .str _ | .null, .arr _ | .null, .obj _
  | .bool _, .null | .bool _, .num _ | .bool _, .str _ | .bool _, .arr _ | .bool _, .obj _
  | .num _, .null | .num _, .bool _ | .num _, .str _ | .num _, .arr _ | .num _, .obj _
  | .str _, .null | .str _, .bool _ | .str _, .num _ | .str _, .arr _ | .str _, .obj _
  | .arr _, .null | .arr _, .bool _ | .arr _, .num _ | .arr _, .str _ | .arr _, .obj _
  | .obj _, .null | .obj _, .bool _ | .obj _, .num _ | .obj _, .str _ | .obj _, .arr _ =>
    isFalse (by intro hc; cases hc)

/-- Decidable equality for lists of `Json`. -/
def Json.decEqList : (a b : List Json) → Decidable (a = b)
  | [], [] => isTrue rfl
  | [], _ :: _ => isFalse (by intro hc; cases hc)
  | _ :: _, [] => isFalse (by intro hc; cases hc)
  | x :: xs, y :: ys =>
    match Json.decEq x y with
    | isTrue h1 =>
      match Json.decEqList xs ys with
      | isTrue h2 => isTrue (by rw [h1, h2])
      | isFalse h2 => isFalse (by intro hc; cases hc; exact h2 rfl)
    | isFalse h1 => isFalse (by intro hc; cases hc; exact h1 rfl)

/-- Decidable equality for JSON object member lists. -/
def Json.decEqKVs : (a b : List (JStr × Json)) → Decidable (a = b)
  | [], [] => isTrue rfl
  | [], _ :: _ => isFalse (by intro hc; cases hc)
  | _ :: _, [] => isFalse (by intro hc; cases hc)
  | (k1, v1) :: xs, (k2, v2) :: ys =>
    match inferInstanceAs (Decidable (k1 = k2)) with
    | isTrue hk =>
      match Json.decEq v1 v2 with
      | isTrue h1 =>
        match Json.decEqKVs xs ys with
        | isTrue h2 => isTrue (by rw [hk, h1, h2])
        | isFalse h2 => isFalse (by intro hc; cases hc; exact h2 rfl)
      | isFalse h1 => isFalse (by intro hc; cases hc; exact h1 rfl)
    | isFalse hk => isFalse (by intro hc; cases hc; exact hk rfl)

end

instance : DecidableEq Json := Json.decEq

/-! ## Decimal rendering of natural numbers (`String(number)` for integers) -/

/-- Character for one decimal digit. -/
def digitChar (d : Nat) : Char := Char.ofNat (48 + d)

/-- Big-endian decimal digits of `n`, with `fuel` bounding the recursion
depth (any `fuel > n` is enough). -/
def natDigitsAux : Nat → Nat → List Char
  | 0, _ => []
  | fuel + 1, n =>
    if n < 10 then [digitChar n]
    else natDigitsAux fuel (n / 10) ++ [digitChar (n % 10)]

/-- Big-endian decimal digits of `n`. -/
def natDigits (n : Nat) : List Char := natDigitsAux (n + 1) n

/-- Test for an ASCII decimal digit. -/
def isDigitCh (c : Char) : Bool := decide (48 ≤ c.toNat ∧ c.toNat ≤ 57)

/-- Numeric value of a list of decimal digit characters. -/
def digitsVal (l : List Char) : Nat :=
  l.foldl (fun a c => a * 10 + (c.toNat - 48)) 0

theorem digitChar_isDigit {d : Nat} (h : d < 10) : isDigitCh (digitChar d) = true := by
  interval_cases d <;> decide

theorem natDigitsAux_digits {fuel n : Nat} (hf : n < fuel) :
    ∀ c ∈ natDigitsAux fuel n, isDigitCh c = true := by
  induction fuel generalizing n with
  | zero => omega
  | succ fuel ih =>
    intro c hc
    simp only [natDigitsAux] at hc
    by_cases h10 : n < 10
    · simp [h10] at hc
      subst hc; exact digitChar_isDigit h10
    · simp [h10] at hc
      rcases hc with hc | hc
      · exact ih (by omega) c hc
      · subst hc; exact digitChar_isDigit (Nat.mod_lt _ (by omega))

theorem natDigits_digits {n : Nat} : ∀ c ∈ natDigits n, isDigitCh c = true :=
  natDigitsAux_digits (Nat.lt_succ_self n)

theorem natDigitsAux_ne_nil {fuel n : Nat} (hf : n < fuel) : natDigitsAux fuel n ≠ [] := by
  cases fuel with
  | zero => omega
  | succ fuel =>
    simp only [natDigitsAux]
    by_cases h10 : n < 10 <;> simp [h10]

theorem natDigits_ne_nil {n : Nat} : natDigits n ≠ [] :=
  natDigitsAux_ne_nil (Nat.lt_succ_self n)

theorem digitChar_toNat {d : Nat} (h : d < 10) : (digitChar d).toNat = 48 + d := by
  interval_cases d <;> decide

theorem foldl_natDigitsAux {fuel : Nat} :
    ∀ {n : Nat} (acc : Nat), n < fuel →
      List.foldl (fun a c => a * 10 + (c.toNat - 48)) acc (natDigitsAux fuel n) =
        acc * 10 ^ (natDigitsAux fuel n).length + n := by
  induction fuel with
  | zero => omega
  | succ fuel ih =>
    intro n acc hn
    simp only [natDigitsAux]
    by_cases h10 : n < 10
    · simp [h10, List.foldl, digitChar_toNat h10]
    · simp only [h10, if_false, List.foldl_append, List.foldl_cons, List.foldl_nil,
        List.length_append, List.length_cons, List.length_nil]

      rw [ih acc (by omega)]
      have hd : (digitChar (n % 10)).toNat = 48 + n % 10 :=
        digitChar_toNat (Nat.mod_lt _ (by omega))
      rw [hd]
      have hpow : 10 ^ ((natDigitsAux fuel (n / 10)).length + (0 + 1)) =
          10 ^ (natDigitsAux fuel (n / 10)).length * 10 := by
        rw [Nat.pow_succ]
      rw [hpow]
      have hda : n / 10 * 10 + n % 10 = n := by omega
      have hmul : (acc * 10 ^ (natDigitsAux fuel (n / 10)).length + n / 10) * 10 =
          acc * (10 ^ (natDigitsAux fuel (n / 10)).length * 10) + n / 10 * 10 := by
        ring
      omega

theorem natDigits_val {n : Nat} : digitsVal (natDigits n) = n := by
  have h := @foldl_natDigitsAux (n + 1) n 0 (Nat.lt_succ_self n)
  simpa [digitsVal, natDigits] using h

/-! ## JSON serialization (model of `JSON.stringify`)

JSON.stringify escapes `"` and `\`, uses the named escapes for the control
characters that have one, and `\u00xx` (lowercase hex) for the remaining
control characters; all other characters pass through verbatim. -/

/-- Lowercase hexadecimal digit character. -/
def hexDigitChar (d : Nat) : Char :=
  if d < 10 then Char.ofNat (48 + d) else Char.ofNat (87 + d)

/-- Escape one character as inside a JSON string literal. -/
def escapeChar (c : Char) : List Char :=
  if c = '"' then ['\\', '"']
  else if c = '\\' then ['\\', '\\']
  else if c = '\n' then ['\\', 'n']
  else if c = '\r' then ['\\', 'r']
  else if c = '\t' then ['\\', 't']
  else if c.toNat = 8 then ['\\', 'b']
  else if c.toNat = 12 then ['\\', 'f']
  else if c.toNat < 32 then
    ['\\', 'u', '0', '0', hexDigitChar (c.toNat / 16), hexDigitChar (c.toNat % 16)]
  else [c]

/-- Escape a whole string body (without the surrounding quotes). -/
def escapeStr : JStr → List Char
  | [] => []
  | c :: cs => escapeChar c ++ escapeStr cs

/-- Decimal rendering of an integer. -/
def intDigits (n : Int) : List Char :=
  if n < 0 then '-' :: natDigits n.natAbs else natDigits n.toNat

mutual

/-- Canonical JSON text of a value, as `JSON.stringify` produces it
(no whitespace, members in order). -/
def jsonStringify : Json → List Char
  | .num n => intDigits n
  | .bool false => ['f', 'a', 'l', 's', 'e']
  | .bool true => ['t', 'r', 'u', 'e']
  | .null => ['n', 'u', 'l', 'l']
  | .str s => '"' :: escapeStr s ++ ['"']
  | .arr xs => '[' :: stringifyElems xs ++ [']']
  | .obj kvs => '\x7b' :: stringifyMembers kvs ++ ['\x7d']

/-- Comma-joined renderings of a list of elements. -/
def stringifyElems : List Json → List Char
  | [] => []
  | [x] => jsonStringify x
  | x :: y :: rest => jsonStringify x ++ ',' :: stringifyElems (y :: rest)

/-- Comma-joined renderings of a list of members (`"key":value`). -/
def stringifyMembers : List (JStr × Json) → List Char
  | [] => []
  | [(k, v)] => '"' :: escapeStr k ++ '"' :: ':' :: jsonStringify v
  | (k, v) :: m2 :: rest =>
    '"' :: escapeStr k ++ '"' :: ':' :: jsonStringify v ++ ',' :: stringifyMembers (m2 :: rest)

end

mutual

/-- Fuel needed by the parser to re-read a rendered value. -/
def jweight : Json → Nat
  | .null => 1
  | .bool _ => 1
  | .num _ => 1
  | .str _ => 1
  | .arr xs => 1 + weightElems xs
  | .obj kvs => 1 + weightMembers kvs

/-- Fuel needed to re-read a rendered element list. -/
def weightElems : List Json → Nat
  | [] => 0
  | x :: rest => 1 + jweight x + weightElems rest

/-- Fuel needed to re-read a rendered member list. -/
def weightMembers : List (JStr × Json) → Nat
  | [] => 0
  | (_, v) :: rest => 1 + jweight v + weightMembers rest

end

theorem jsonStringify_ne_nil (j : Json) : jsonStringify j ≠ [] := by
  match j with
  | .null => simp [jsonStringify]
  | .bool true => simp [jsonStringify]
  | .bool false => simp [jsonStringify]
  | .num n =>
    simp only [jsonStringify, intDigits]
    by_cases h : n < 0 <;> simp [h, natDigits_ne_nil]
  | .str s => simp [jsonStringify]
  | .arr xs => simp [jsonStringify]
  | .obj kvs => simp [jsonStringify]

theorem jsonStringify_sample : jsonStringify (.obj [(js "a", .num 10)]) =
    ['\x7b', '"', 'a', '"', ':', '1', '0', '\x7d'] := rfl

theorem stringify_weight_le (j : Json) : jweight j ≤ (jsonStringify j).length := by
  refine @jweight.induct
    (fun j => jweight j ≤ (jsonStringify j).length)
    (fun kvs => weightMembers kvs ≤ (stringifyMembers kvs).length + 1)
    (fun xs => weightElems xs ≤ (stringifyElems xs).length + 1)
    ?_ ?_ ?_ ?_ ?_ ?_ ?_ ?_ ?_ ?_ j
  · simp [jweight, jsonStringify]
  · intro b
    cases b <;> simp [jweight, jsonStringify]
  · intro n
    simp only [jweight, jsonStringify, intDigits]
    by_cases h : n < 0
    · simp only [h, if_true, List.length_cons]
      omega
    · simp only [h, if_false]
      have := @natDigits_ne_nil n.toNat
      cases hnd : natDigits n.toNat with
      | nil => exact absurd hnd this
      | cons c cs => simp
  · intro s
    simp [jweight, jsonStringify]
  · intro xs ih
    simp only [jweight, jsonStringify, List.length_append, List.length_cons]
    omega
  · intro kvs ih
    simp only [jweight, jsonStringify, List.length_append, List.length_cons]
    omega
  · simp [weightElems, stringifyElems]
  · intro x rest ih1 ih2
    cases rest with
    | nil => simp only [weightElems, stringifyElems, weightElems]; omega
    | cons y r =>
      simp only [weightElems, stringifyElems, List.length_append, List.length_cons] at *
      omega
  · simp [weightMembers, stringifyMembers]
  · intro k v rest ih1 ih2
    cases rest with
    | nil => simp only [weightMembers, stringifyMembers]; simp; omega
    | cons m2 r =>
      simp only [weightMembers, stringifyMembers, List.length_append, List.length_cons] at *
      omega

theorem jweight_pos (j : Json) : 1 ≤ jweight j := by
  cases j <;> simp [jweight]

theorem stringify_head (j : Json) :
    ∃ c t, jsonStringify j = c :: t ∧ c ≠ ']' ∧ c ≠ '\x7d' ∧ c ≠ ',' ∧ c ≠ ':' := by
  match j with
  | .null => exact ⟨'n', _, rfl, by decide, by decide, by decide, by decide⟩
  | .bool true => exact ⟨'t', _, rfl, by decide, by decide, by decide, by decide⟩
  | .bool false => exact ⟨'f', _, rfl, by decide, by decide, by decide, by decide⟩
  | .num n =>
    simp only [jsonStringify, intDigits]
    by_cases h : n < 0
    · exact ⟨'-', natDigits n.natAbs, by simp [h], by decide, by decide, by decide, by decide⟩
    · cases hnd : natDigits n.toNat with
      | nil => exact absurd hnd natDigits_ne_nil
      | cons c cs =>
        have hdig : isDigitCh c = true := natDigits_digits c (by rw [hnd]; exact List.mem_cons_self _ _)
        refine ⟨c, cs, by simp [h], ?_, ?_, ?_, ?_⟩ <;>
          (intro hc; subst hc; revert hdig; decide)
  | .str s => exact ⟨'"', _, rfl, by decide, by decide, by decide, by decide⟩
  | .arr xs => exact ⟨'[', _, rfl, by decide, by decide, by decide, by decide⟩
  | .obj kvs => exact ⟨'\x7b', _, rfl, by decide, by decide, by decide, by decide⟩

/-! ## Base64 (model of the WHATWG `btoa` / `atob` builtins) -/

/-- Character of the standard base64 alphabet for a 6-bit value. -/
def b64Char (n : Nat) : Char :=
  if n < 26 then Char.ofNat (65 + n)
  else if n < 52 then Char.ofNat (97 + (n - 26))
  else if n < 62 then Char.ofNat (48 + (n - 52))
  else if n = 62 then '+'
  else '/'

/-- Value of a base64 alphabet character. -/
def b64Val (c : Char) : Option Nat :=
  if 65 ≤ c.toNat ∧ c.toNat ≤ 90 then some (c.toNat - 65)
  else if 97 ≤ c.toNat ∧ c.toNat ≤ 122 then some (c.toNat - 97 + 26)
  else if 48 ≤ c.toNat ∧ c.toNat ≤ 57 then some (c.toNat - 48 + 52)
  else if c = '+' then some 62
  else if c = '/' then some 63
  else none

/-- Base64 text of a byte sequence, including trailing `=` padding. -/
def encodeBytes : List Nat → List Char
  | [] => []
  | [a] => [b64Char (a / 4), b64Char (a % 4 * 16), '=', '=']
  | [a, b] => [b64Char (a / 4), b64Char (a % 4 * 16 + b / 16), b64Char (b % 16 * 4), '=']
  | a :: b :: c :: rest =>
    b64Char (a / 4) :: b64Char (a % 4 * 16 + b / 16) ::
      b64Char (b % 16 * 4 + c / 64) :: b64Char (c % 64) :: encodeBytes rest

/-- Bytes of a base64 text (`none` on any malformed input, as `atob`
throws; forgiving-base64 whitespace stripping is omitted, as every decode in
this development is of an `encodeBytes` output). -/
def decodeB64 : List Char → Option (List Nat)
  | [] => some []
  | c1 :: c2 :: c3 :: c4 :: rest =>
    match b64Val c1, b64Val c2 with
    | some v1, some v2 =>
      if c3 = '=' ∧ c4 = '=' ∧ rest = [] then some [v1 * 4 + v2 / 16]
      else
        match b64Val c3 with
        | some v3 =>
          if c4 = '=' ∧ rest = [] then some [v1 * 4 + v2 / 16, v2 % 16 * 16 + v3 / 4]
          else
            match b64Val c4 with
            | some v4 =>
              (decodeB64 rest).map
                (fun bs =>
                  (v1 * 4 + v2 / 16) :: (v2 % 16 * 16 + v3 / 4) :: (v3 % 4 * 64 + v4) :: bs)
            | none => none
        | none => none
    | _, _ => none
  | _ => none

/-- Model of `btoa`: base64 of a Latin-1 string, `none` (a thrown
InvalidCharacterError) if any character is above U+00FF. -/
def btoa (s : List Char) : Option (List Char) :=
  if s.all (fun c => c.toNat < 256) then some (encodeBytes (s.map Char.toNat)) else none

/-- Model of `atob`: inverse of `btoa`, `none` on malformed base64. -/
def atob (s : List Char) : Option (List Char) :=
  (decodeB64 s).map (fun bs => bs.map Char.ofNat)

theorem b64Val_b64Char {n : Nat} (h : n < 64) : b64Val (b64Char n) = some n := by
  interval_cases n <;> decide

theorem b64Char_ne_pad {n : Nat} (h : n < 64) : b64Char n ≠ '=' := by
  interval_cases n <;> decide

theorem decodeB64_encodeBytes :
    ∀ l : List Nat, (∀ x ∈ l, x < 256) → decodeB64 (encodeBytes l) = some l := by
  intro l
  induction l using encodeBytes.induct with
  | case1 =>
    intro _
    rfl
  | case2 a =>
    intro hb
    have ha : a < 256 := hb a (by simp)
    simp only [encodeBytes, decodeB64]
    rw [b64Val_b64Char (by omega), b64Val_b64Char (by omega)]
    simp only [and_self, if_true, and_true, reduceIte]
    simp only [Option.some.injEq, List.cons.injEq, and_true]
    omega
  | case3 a b =>
    intro hb
    have ha : a < 256 := hb a (by simp)
    have hbb : b < 256 := hb b (by simp)
    simp only [encodeBytes, decodeB64]
    rw [b64Val_b64Char (by omega), b64Val_b64Char (by omega)]
    have hne : b64Char (b % 16 * 4) ≠ '=' := b64Char_ne_pad (by omega)
    simp only [hne, false_and, if_false]
    rw [b64Val_b64Char (by omega)]
    simp only [and_self, and_true, reduceIte]
    simp only [Option.some.injEq, List.cons.injEq, and_true]
    constructor
    · omega
    · omega
  | case4 a b c rest ih =>
    intro hb
    have ha : a < 256 := hb a (by simp)
    have hbb : b < 256 := hb b (by simp)
    have hc : c < 256 := hb c (by simp)
    simp only [encodeBytes, decodeB64]
    rw [b64Val_b64Char (by omega), b64Val_b64Char (by omega)]
    have hne3 : b64Char (b % 16 * 4 + c / 64) ≠ '=' := b64Char_ne_pad (by omega)
    have hne4 : b64Char (c % 64) ≠ '=' := b64Char_ne_pad (by omega)
    simp only [hne3, false_and, if_false]
    rw [b64Val_b64Char (by omega)]
    simp only [hne4, false_and, if_false]
    rw [b64Val_b64Char (by omega)]
    rw [ih (fun x hx => hb x (by simp [hx]))]
    simp only [Option.map_some', Option.some.injEq, List.cons.injEq, and_true]
    refine ⟨by omega, by omega, by omega⟩

theorem atob_btoa {s t : List Char} (h : btoa s = some t) : atob t = some s := by
  simp only [btoa] at h
  by_cases hall : s.all (fun c => c.toNat < 256)
  · rw [if_pos hall] at h
    cases h
    simp only [atob]
    rw [decodeB64_encodeBytes]
    · simp only [Option.map_some', Option.some.injEq]
      rw [List.map_map]
      have : (Char.ofNat ∘ Char.toNat) = id := by
        funext c
        simp [Char.ofNat_toNat]
      rw [this, List.map_id]
    · intro x hx
      rcases List.mem_map.mp hx with ⟨c, hc, rfl⟩
      have := List.all_eq_true.mp hall c hc
      simpa using this
  · rw [if_neg hall] at h
    cases h

/-! ## JSON parsing (model of `JSON.parse`)

The parser follows the JSON grammar as the serializer above emits it.  Two
simplifications relative to the full builtin are noted where they occur:
whitespace skipping is omitted, and a `\u` escape is taken as a single code
point (the serializer only emits `\u00xx`), because every string parsed in
this development is a canonical `jsonStringify` output. -/

/-- Value of one hexadecimal digit character. -/
def hexVal (c : Char) : Option Nat :=
  if 48 ≤ c.toNat ∧ c.toNat ≤ 57 then some (c.toNat - 48)
  else if 97 ≤ c.toNat ∧ c.toNat ≤ 102 then some (c.toNat - 97 + 10)
  else if 65 ≤ c.toNat ∧ c.toNat ≤ 70 then some (c.toNat - 65 + 10)
  else none

/-- Split a maximal run of decimal digits off the front. -/
def spanDigits : List Char → List Char × List Char
  | [] => ([], [])
  | c :: rest =>
    if isDigitCh c then
      let p := spanDigits rest
      (c :: p.1, p.2)
    else ([], c :: rest)

/-- Parse a nonempty run of decimal digits as a natural number. -/
def parseNat (l : List Char) : Option (Nat × List Char) :=
  match spanDigits l with
  | ([], _) => none
  | (ds, r) => some (digitsVal ds, r)

/-- Parse a JSON string body after the opening quote, through the closing
quote. -/
def parseStr : List Char → Option (JStr × List Char)
  | [] => none
  | c :: rest =>
    if c = '"' then some ([], rest)
    else if c = '\\' then
      match rest with
      | [] => none
      | e :: rest2 =>
        if e = '"' then (parseStr rest2).map (fun p => ('"' :: p.1, p.2))
        else if e = '\\' then (parseStr rest2).map (fun p => ('\\' :: p.1, p.2))
        else if e = '/' then (parseStr rest2).map (fun p => ('/' :: p.1, p.2))
        else if e = 'n' then (parseStr rest2).map (fun p => ('\n' :: p.1, p.2))
        else if e = 'r' then (parseStr rest2).map (fun p => ('\r' :: p.1, p.2))
        else if e = 't' then (parseStr rest2).map (fun p => ('\t' :: p.1, p.2))
        else if e = 'b' then (parseStr rest2).map (fun p => (Char.ofNat 8 :: p.1, p.2))
        else if e = 'f' then (parseStr rest2).map (fun p => (Char.ofNat 12 :: p.1, p.2))
        else if e = 'u' then
          match rest2 with
          | h1 :: h2 :: h3 :: h4 :: rest3 =>
            match hexVal h1, hexVal h2, hexVal h3, hexVal h4 with
            | some a, some b, some c3, some d =>
              (parseStr rest3).map
                (fun p => (Char.ofNat (a * 4096 + b * 256 + c3 * 16 + d) :: p.1, p.2))
            | _, _, _, _ => none
          | _ => none
        else none
    else (parseStr rest).map (fun p => (c :: p.1, p.2))

mutual

/-- Parse one JSON value; `fuel` bounds the nesting recursion. -/
def parseVal : Nat → List Char → Option (Json × List Char)
  | 0, _ => none
  | fuel + 1, input =>
    match input with
    | [] => none
    | c :: rest =>
      if isDigitCh c then
        (parseNat (c :: rest)).map (fun p => (Json.num (p.1 : Int), p.2))
      else if c = '-' then
        (parseNat rest).map (fun p => (Json.num (-(p.1 : Int)), p.2))
      else if c = '"' then
        (parseStr rest).map (fun p => (Json.str p.1, p.2))
      else if c = '[' then
        match rest with
        | ']' :: r => some (Json.arr [], r)
        | _ => (parseElems fuel rest).map (fun p => (Json.arr p.1, p.2))
      else if c = '\x7b' then
        match rest with
        | '\x7d' :: r => some (Json.obj [], r)
        | _ => (parseMembers fuel rest).map (fun p => (Json.obj p.1, p.2))
      else
        match c :: rest with
        | 'n' :: 'u' :: 'l' :: 'l' :: r => some (Json.null, r)
        | 't' :: 'r' :: 'u' :: 'e' :: r => some (Json.bool true, r)
        | 'f' :: 'a' :: 'l' :: 's' :: 'e' :: r => some (Json.bool false, r)
        | _ => none

/-- Parse a nonempty element list, consuming the closing `]`. -/
def parseElems : Nat → List Char → Option (List Json × List Char)
  | 0, _ => none
  | fuel + 1, input =>
    match parseVal fuel input with
    | none => none
    | some (v, rest) =>
      match rest with
      | ',' :: r => (parseElems fuel r).map (fun p => (v :: p.1, p.2))
      | ']' :: r => some ([v], r)
      | _ => none

/-- Parse a nonempty member list, consuming the closing brace. -/
def parseMembers : Nat → List Char → Option (List (JStr × Json) × List Char)
  | 0, _ => none
  | fuel + 1, input =>
    match input with
    | '"' :: rest =>
      match parseStr rest with
      | none => none
      | some (k, rest1) =>
        match rest1 with
        | ':' :: rest2 =>
          match parseVal fuel rest2 with
          | none => none
          | some (v, rest3) =>
            match rest3 with
            | ',' :: r => (parseMembers fuel r).map (fun p => ((k, v) :: p.1, p.2))
            | '\x7d' :: r => some ([(k, v)], r)
            | _ => none
        | _ => none
    | _ => none

end

/-- Model of `JSON.parse`: parse a complete JSON text (`none` models a thrown
SyntaxError). -/
def jsonParse (s : List Char) : Option Json :=
  match parseVal (s.length + 1) s with
  | some (j, []) => some j
  | _ => none

theorem jsonParse_sample : jsonParse (js "\x7b\"a\":[1,null,true]\x7d") =
    some (.obj [(js "a", .arr [.num 1, .null, .bool true])]) := rfl

theorem jsonParse_stringify_sample : jsonParse (jsonStringify (.obj [(js "k", .str (js "x\ny"))])) =
    some (.obj [(js "k", .str (js "x\ny"))]) := rfl

/-- The continuation after a rendered number never begins with a digit. -/
def noLeadDigit (l : List Char) : Bool :=
  match l with
  | [] => true
  | c :: _ => !(isDigitCh c)


theorem spanDigits_append {ds rest : List Char}
    (hds : ∀ c ∈ ds, isDigitCh c = true) (hr : noLeadDigit rest = true) :
    spanDigits (ds ++ rest) = (ds, rest) := by
  induction ds with
  | nil =>
    cases rest with
    | nil => rfl
    | cons c t =>
      simp only [noLeadDigit, Bool.not_eq_true'] at hr
      simp [spanDigits, hr]
  | cons d ds ih =>
    have hd : isDigitCh d = true := hds d (by simp)
    have hih := ih (fun c hc => hds c (by simp [hc]))
    simp only [List.cons_append, spanDigits, hd, if_true, List.append_eq, hih]

theorem parseNat_natDigits {m : Nat} {rest : List Char} (hr : noLeadDigit rest = true) :
    parseNat (natDigits m ++ rest) = some (m, rest) := by
  simp only [parseNat, spanDigits_append (natDigits_digits) hr]
  cases hnd : natDigits m with
  | nil => exact absurd hnd natDigits_ne_nil
  | cons c cs =>
    have : digitsVal (c :: cs) = m := by rw [← hnd]; exact natDigits_val
    simp [this]

theorem hexVal_hexDigitChar {k : Nat} (h : k < 16) : hexVal (hexDigitChar k) = some k := by
  interval_cases k <;> decide

theorem escapeChar_quote : escapeChar '"' = ['\\', '"'] := rfl

theorem escapeChar_back : escapeChar '\\' = ['\\', '\\'] := rfl

theorem escapeChar_n : escapeChar '\n' = ['\\', 'n'] := rfl

theorem escapeChar_r : escapeChar '\r' = ['\\', 'r'] := rfl

theorem escapeChar_t : escapeChar '\t' = ['\\', 't'] := rfl

theorem escapeChar_b {c : Char} (h : c.toNat = 8) : escapeChar c = ['\\', 'b'] := by
  have h1 : ¬c = '"' := by intro hc; subst hc; simp at h
  have h2 : ¬c = '\\' := by intro hc; subst hc; simp at h
  have h3 : ¬c = '\n' := by intro hc; subst hc; simp at h
  have h4 : ¬c = '\r' := by intro hc; subst hc; simp at h
  have h5 : ¬c = '\t' := by intro hc; subst hc; simp at h
  rw [escapeChar, if_neg h1, if_neg h2, if_neg h3, if_neg h4, if_neg h5, if_pos h]

theorem escapeChar_f {c : Char} (h : c.toNat = 12) : escapeChar c = ['\\', 'f'] := by
  have h1 : ¬c = '"' := by intro hc; subst hc; simp at h
  have h2 : ¬c = '\\' := by intro hc; subst hc; simp at h
  have h3 : ¬c = '\n' := by intro hc; subst hc; simp at h
  have h4 : ¬c = '\r' := by intro hc; subst hc; simp at h
  have h5 : ¬c = '\t' := by intro hc; subst hc; simp at h
  have h6 : ¬c.toNat = 8 := by omega
  rw [escapeChar, if_neg h1, if_neg h2, if_neg h3, if_neg h4, if_neg h5, if_neg h6, if_pos h]

theorem escapeChar_ctrl {c : Char} (h3 : ¬c = '\n') (h4 : ¬c = '\r') (h5 : ¬c = '\t')
    (h8 : ¬c.toNat = 8) (h12 : ¬c.toNat = 12) (h32 : c.toNat < 32) :
    escapeChar c =
      ['\\', 'u', '0', '0', hexDigitChar (c.toNat / 16), hexDigitChar (c.toNat % 16)] := by
  have h1 : ¬c = '"' := by intro hc; subst hc; simp at h32
  have h2 : ¬c = '\\' := by intro hc; subst hc; simp at h32
  rw [escapeChar, if_neg h1, if_neg h2, if_neg h3, if_neg h4, if_neg h5, if_neg h8, if_neg h12,
    if_pos h32]

theorem escapeChar_plain {c : Char} (h1 : ¬c = '"') (h2 : ¬c = '\\') (h32 : ¬c.toNat < 32) :
    escapeChar c = [c] := by
  have h3 : ¬c = '\n' := by intro hc; subst hc; simp at h32
  have h4 : ¬c = '\r' := by intro hc; subst hc; simp at h32
  have h5 : ¬c = '\t' := by intro hc; subst hc; simp at h32
  have h6 : ¬c.toNat = 8 := by omega
  have h7 : ¬c.toNat = 12 := by omega
  rw [escapeChar, if_neg h1, if_neg h2, if_neg h3, if_neg h4, if_neg h5, if_neg h6, if_neg h7,
    if_neg h32]

theorem parseStr_quote (rest : List Char) : parseStr ('"' :: rest) = some ([], rest) := by
  rw [parseStr.eq_def]
  simp

theorem parseStr_e_quote (t : List Char) :
    parseStr ('\\' :: '"' :: t) = (parseStr t).map (fun p => ('"' :: p.1, p.2)) := by
  rw [parseStr.eq_def]
  simp

theorem parseStr_e_back (t : List Char) :
    parseStr ('\\' :: '\\' :: t) = (parseStr t).map (fun p => ('\\' :: p.1, p.2)) := by
  rw [parseStr.eq_def]
  simp

theorem parseStr_e_n (t : List Char) :
    parseStr ('\\' :: 'n' :: t) = (parseStr t).map (fun p => ('\n' :: p.1, p.2)) := by
  rw [parseStr.eq_def]
  simp

theorem parseStr_e_r (t : List Char) :
    parseStr ('\\' :: 'r' :: t) = (parseStr t).map (fun p => ('\r' :: p.1, p.2)) := by
  rw [parseStr.eq_def]
  simp

theorem parseStr_e_t (t : List Char) :
    parseStr ('\\' :: 't' :: t) = (parseStr t).map (fun p => ('\t' :: p.1, p.2)) := by
  rw [parseStr.eq_def]
  simp

theorem parseStr_e_b (t : List Char) :
    parseStr ('\\' :: 'b' :: t) = (parseStr t).map (fun p => (Char.ofNat 8 :: p.1, p.2)) := by
  rw [parseStr.eq_def]
  simp

theorem parseStr_e_f (t : List Char) :
    parseStr ('\\' :: 'f' :: t) = (parseStr t).map (fun p => (Char.ofNat 12 :: p.1, p.2)) := by
  rw [parseStr.eq_def]
  simp

theorem parseStr_e_u (h1 h2 h3 h4 : Char) (t : List Char) :
    parseStr ('\\' :: 'u' :: h1 :: h2 :: h3 :: h4 :: t) =
      match hexVal h1, hexVal h2, hexVal h3, hexVal h4 with
      | some a, some b, some c3, some d =>
        (parseStr t).map
          (fun p => (Char.ofNat (a * 4096 + b * 256 + c3 * 16 + d) :: p.1, p.2))
      | _, _, _, _ => none := by
  rw [parseStr.eq_def]
  simp

theorem parseStr_other {c : Char} (hne1 : ¬c = '"') (hne2 : ¬c = '\\') (t : List Char) :
    parseStr (c :: t) = (parseStr t).map (fun p => (c :: p.1, p.2)) := by
  rw [parseStr.eq_def]
  simp [hne1, hne2]

theorem parseStr_escape : ∀ (s : JStr) (rest : List Char),
    parseStr (escapeStr s ++ '"' :: rest) = some (s, rest) := by
  intro s
  induction s with
  | nil => intro rest; simp [escapeStr, parseStr_quote]
  | cons c cs ih =>
    intro rest
    simp only [escapeStr, List.append_assoc]
    by_cases hq : c = '"'
    · subst hq
      rw [escapeChar_quote]
      simp only [List.cons_append, List.nil_append]
      rw [parseStr_e_quote, ih]
      rfl
    · by_cases hb : c = '\\'
      · subst hb
        rw [escapeChar_back]
        simp only [List.cons_append, List.nil_append]
        rw [parseStr_e_back, ih]
        rfl
      · by_cases hn : c = '\n'
        · subst hn
          rw [escapeChar_n]
          simp only [List.cons_append, List.nil_append]
          rw [parseStr_e_n, ih]
          rfl
        · by_cases hrr : c = '\r'
          · subst hrr
            rw [escapeChar_r]
            simp only [List.cons_append, List.nil_append]
            rw [parseStr_e_r, ih]
            rfl
          · by_cases ht : c = '\t'
            · subst ht
              rw [escapeChar_t]
              simp only [List.cons_append, List.nil_append]
              rw [parseStr_e_t, ih]
              rfl
            · by_cases h8 : c.toNat = 8
              · rw [escapeChar_b h8]
                simp only [List.cons_append, List.nil_append]
                rw [parseStr_e_b, ih]
                have hc : Char.ofNat 8 = c := by rw [← h8, Char.ofNat_toNat]
                simp only [hc]
                rfl
              · by_cases h12 : c.toNat = 12
                · rw [escapeChar_f h12]
                  simp only [List.cons_append, List.nil_append]
                  rw [parseStr_e_f, ih]
                  have hc : Char.ofNat 12 = c := by rw [← h12, Char.ofNat_toNat]
                  simp only [hc]
                  rfl
                · by_cases h32 : c.toNat < 32
                  · rw [escapeChar_ctrl hn hrr ht h8 h12 h32]
                    simp only [List.cons_append, List.nil_append]
                    rw [parseStr_e_u]
                    have hhi : hexVal (hexDigitChar (c.toNat / 16)) = some (c.toNat / 16) :=
                      hexVal_hexDigitChar (by omega)
                    have hlo : hexVal (hexDigitChar (c.toNat % 16)) = some (c.toNat % 16) :=
                      hexVal_hexDigitChar (by omega)
                    rw [show hexVal '0' = some 0 from rfl, hhi, hlo]
                    rw [ih]
                    have hc : Char.ofNat (0 * 4096 + 0 * 256 + c.toNat / 16 * 16 + c.toNat % 16)
                        = c := by
                      have he : 0 * 4096 + 0 * 256 + c.toNat / 16 * 16 + c.toNat % 16
                          = c.toNat := by omega
                      rw [he, Char.ofNat_toNat]
                    simp only [hc]
                    rfl
                  · rw [escapeChar_plain hq hb h32]
                    simp only [List.cons_append, List.nil_append]
                    rw [parseStr_other hq hb, ih]
                    rfl

theorem parseVal_cons (fuel : Nat) (c : Char) (rest : List Char) :
    parseVal (fuel + 1) (c :: rest) =
      if isDigitCh c then
        (parseNat (c :: rest)).map (fun p => (Json.num (p.1 : Int), p.2))
      else if c = '-' then
        (parseNat rest).map (fun p => (Json.num (-(p.1 : Int)), p.2))
      else if c = '"' then
        (parseStr rest).map (fun p => (Json.str p.1, p.2))
      else if c = '[' then
        match rest with
        | ']' :: r => some (Json.arr [], r)
        | _ => (parseElems fuel rest).map (fun p => (Json.arr p.1, p.2))
      else if c = '\x7b' then
        match rest with
        | '\x7d' :: r => some (Json.obj [], r)
        | _ => (parseMembers fuel rest).map (fun p => (Json.obj p.1, p.2))
      else
        match c :: rest with
        | 'n' :: 'u' :: 'l' :: 'l' :: r => some (Json.null, r)
        | 't' :: 'r' :: 'u' :: 'e' :: r => some (Json.bool true, r)
        | 'f' :: 'a' :: 'l' :: 's' :: 'e' :: r => some (Json.bool false, r)
        | _ => none := by
  rw [parseVal.eq_def]

theorem parseElems_succ (fuel : Nat) (input : List Char) :
    parseElems (fuel + 1) input =
      match parseVal fuel input with
      | none => none
      | some (v, rest) =>
        match rest with
        | ',' :: r => (parseElems fuel r).map (fun p => (v :: p.1, p.2))
        | ']' :: r => some ([v], r)
        | _ => none := by
  rw [parseElems.eq_def]

theorem parseMembers_succ (fuel : Nat) (input : List Char) :
    parseMembers (fuel + 1) input =
      match input with
      | '"' :: rest =>
        match parseStr rest with
        | none => none
        | some (k, rest1) =>
          match rest1 with
          | ':' :: rest2 =>
            match parseVal fuel rest2 with
            | none => none
            | some (v, rest3) =>
              match rest3 with
              | ',' :: r => (parseMembers fuel r).map (fun p => ((k, v) :: p.1, p.2))
              | '\x7d' :: r => some ([(k, v)], r)
              | _ => none
          | _ => none
      | _ => none := by
  rw [parseMembers.eq_def]

theorem parseMembers_succ_quote (fuel : Nat) (rest : List Char) :
    parseMembers (fuel + 1) ('"' :: rest) =
      match parseStr rest with
      | none => none
      | some (k, rest1) =>
        match rest1 with
        | ':' :: rest2 =>
          match parseVal fuel rest2 with
          | none => none
          | some (v, rest3) =>
            match rest3 with
            | ',' :: r => (parseMembers fuel r).map (fun p => ((k, v) :: p.1, p.2))
            | '\x7d' :: r => some ([(k, v)], r)
            | _ => none
        | _ => none := by
  rw [parseMembers.eq_def]
  simp

theorem stringifyElems_cons_eq (x : Json) (xs : List Json) :
    ∃ t, stringifyElems (x :: xs) = jsonStringify x ++ t := by
  cases xs with
  | nil => exact ⟨[], by simp [stringifyElems]⟩
  | cons y r => exact ⟨',' :: stringifyElems (y :: r), by simp [stringifyElems]⟩

theorem stringifyMembers_cons_eq (m : JStr × Json) (ms : List (JStr × Json)) :
    ∃ t, stringifyMembers (m :: ms) = '"' :: t := by
  obtain ⟨k, v⟩ := m
  cases ms with
  | nil =>
    exact ⟨escapeStr k ++ '"' :: ':' :: jsonStringify v, by simp [stringifyMembers]⟩
  | cons m2 r =>
    exact ⟨escapeStr k ++ '"' :: ':' :: (jsonStringify v ++ ',' :: stringifyMembers (m2 :: r)),
      by simp [stringifyMembers]⟩

theorem weightElems_pos {xs : List Json} (h : xs ≠ []) : 1 ≤ weightElems xs := by
  cases xs with
  | nil => exact absurd rfl h
  | cons x r => simp [weightElems]; omega

theorem weightMembers_pos {ms : List (JStr × Json)} (h : ms ≠ []) : 1 ≤ weightMembers ms := by
  cases ms with
  | nil => exact absurd rfl h
  | cons m r => obtain ⟨k, v⟩ := m; simp [weightMembers]; omega

theorem parse_stringify : ∀ fuel : Nat,
    (∀ (j : Json) (rest : List Char), jweight j ≤ fuel → noLeadDigit rest = true →
      parseVal fuel (jsonStringify j ++ rest) = some (j, rest)) ∧
    (∀ (xs : List Json) (rest : List Char), xs ≠ [] → weightElems xs ≤ fuel →
      parseElems fuel (stringifyElems xs ++ ']' :: rest) = some (xs, rest)) ∧
    (∀ (kvs : List (JStr × Json)) (rest : List Char), kvs ≠ [] → weightMembers kvs ≤ fuel →
      parseMembers fuel (stringifyMembers kvs ++ '\x7d' :: rest) = some (kvs, rest)) := by
  intro fuel
  induction fuel with
  | zero =>
    refine ⟨?_, ?_, ?_⟩
    · intro j rest hw _
      have := jweight_pos j
      omega
    · intro xs rest hne hw
      have := weightElems_pos hne
      omega
    · intro kvs rest hne hw
      have := weightMembers_pos hne
      omega
  | succ fuel ih =>
    obtain ⟨ihV, ihE, ihM⟩ := ih
    refine ⟨?_, ?_, ?_⟩
    · intro j rest hw hnd
      match j with
      | .null =>
        have hs : jsonStringify Json.null ++ rest = 'n' :: 'u' :: 'l' :: 'l' :: rest := rfl
        rw [hs, parseVal_cons]
        simp [isDigitCh]
      | .bool true =>
        have hs : jsonStringify (Json.bool true) ++ rest = 't' :: 'r' :: 'u' :: 'e' :: rest := rfl
        rw [hs, parseVal_cons]
        simp [isDigitCh]
      | .bool false =>
        have hs : jsonStringify (Json.bool false) ++ rest
            = 'f' :: 'a' :: 'l' :: 's' :: 'e' :: rest := rfl
        rw [hs, parseVal_cons]
        simp [isDigitCh]
      | .num n =>
        by_cases hneg : n < 0
        · have hs : jsonStringify (Json.num n) ++ rest = '-' :: (natDigits n.natAbs ++ rest) := by
            simp [jsonStringify, intDigits, hneg]
          rw [hs, parseVal_cons]
          have hd : isDigitCh '-' = false := by decide
          rw [hd]
          simp only [Bool.false_eq_true, if_false, reduceIte]
          rw [parseNat_natDigits hnd]
          simp only [Option.map_some', Option.some.injEq, Prod.mk.injEq, and_true]
          congr 1
          omega
        · cases hnd' : natDigits n.toNat with
          | nil => exact absurd hnd' natDigits_ne_nil
          | cons c cs =>
            have hs : jsonStringify (Json.num n) ++ rest = c :: (cs ++ rest) := by
              simp [jsonStringify, intDigits, hneg, hnd']
            rw [hs, parseVal_cons]
            have hd : isDigitCh c = true :=
              natDigits_digits c (by rw [hnd']; exact List.mem_cons_self _ _)
            rw [hd]
            simp only [if_true, reduceIte]
            have hback : c :: (cs ++ rest) = natDigits n.toNat ++ rest := by
              rw [hnd']; rfl
            rw [hback, parseNat_natDigits hnd]
            simp only [Option.map_some', Option.some.injEq, Prod.mk.injEq, and_true]
            congr 1
            omega
      | .str s =>
        have hs : jsonStringify (Json.str s) ++ rest = '"' :: (escapeStr s ++ '"' :: rest) := by
          simp [jsonStringify]
        rw [hs, parseVal_cons]
        have hd : isDigitCh '"' = false := by decide
        rw [hd]
        simp only [Bool.false_eq_true, if_false, reduceIte]
        rw [parseStr_escape]
        rfl
      | .arr [] =>
        have hs : jsonStringify (Json.arr []) ++ rest = '[' :: ']' :: rest := rfl
        rw [hs, parseVal_cons]
        simp [isDigitCh]
      | .arr (x :: xs) =>
        have hs : jsonStringify (Json.arr (x :: xs)) ++ rest
            = '[' :: (stringifyElems (x :: xs) ++ ']' :: rest) := by
          simp [jsonStringify]
        rw [hs, parseVal_cons]
        rw [if_neg (show ¬isDigitCh '[' = true by decide),
          if_neg (show ¬('[' : Char) = '-' by decide),
          if_neg (show ¬('[' : Char) = '"' by decide),
          if_pos (show ('[' : Char) = '[' from rfl)]
        have hE := ihE (x :: xs) rest (by simp)
          (by simp only [jweight] at hw; omega)
        split
        · rename_i r heq
          obtain ⟨t, ht⟩ := stringifyElems_cons_eq x xs
          obtain ⟨c0, t0, he, hc1, _, _, _⟩ := stringify_head x
          rw [ht, he] at heq
          simp at heq
          exact absurd heq.1 hc1
        · rw [hE]
          rfl
      | .obj [] =>
        have hs : jsonStringify (Json.obj []) ++ rest = '\x7b' :: '\x7d' :: rest := rfl
        rw [hs, parseVal_cons]
        simp [isDigitCh]
      | .obj (m :: ms) =>
        have hs : jsonStringify (Json.obj (m :: ms)) ++ rest
            = '\x7b' :: (stringifyMembers (m :: ms) ++ '\x7d' :: rest) := by
          simp [jsonStringify]
        rw [hs, parseVal_cons]
        rw [if_neg (show ¬isDigitCh '\x7b' = true by decide),
          if_neg (show ¬('\x7b' : Char) = '-' by decide),
          if_neg (show ¬('\x7b' : Char) = '"' by decide),
          if_neg (show ¬('\x7b' : Char) = '[' by decide),
          if_pos (show ('\x7b' : Char) = '\x7b' from rfl)]
        have hM := ihM (m :: ms) rest (by simp)
          (by simp only [jweight] at hw; omega)
        split
        · rename_i r heq
          obtain ⟨t, ht⟩ := stringifyMembers_cons_eq m ms
          rw [ht] at heq
          simp at heq
        · rw [hM]
          rfl
    · intro xs rest hne hw
      match xs with
      | [x] =>
        have hs : stringifyElems [x] ++ ']' :: rest = jsonStringify x ++ ']' :: rest := by
          simp [stringifyElems]
        rw [hs, parseElems_succ]
        rw [ihV x (']' :: rest) (by simp only [weightElems] at hw; omega) rfl]
        rfl
      | x :: y :: r =>
        have hs : stringifyElems (x :: y :: r) ++ ']' :: rest
            = jsonStringify x ++ (',' :: (stringifyElems (y :: r) ++ ']' :: rest)) := by
          simp [stringifyElems]
        rw [hs, parseElems_succ]
        rw [ihV x (',' :: (stringifyElems (y :: r) ++ ']' :: rest))
          (by simp only [weightElems] at hw; omega) rfl]
        simp only [ihE (y :: r) rest (by simp) (by simp only [weightElems] at hw ⊢; omega)]
        rfl
    · intro kvs rest hne hw
      match kvs with
      | [(k, v)] =>
        have hs : stringifyMembers [(k, v)] ++ '\x7d' :: rest
            = '"' :: (escapeStr k ++ '"' :: (':' :: (jsonStringify v ++ '\x7d' :: rest))) := by
          simp [stringifyMembers]
        rw [hs, parseMembers_succ_quote, parseStr_escape]
        simp only [ihV v ('\x7d' :: rest) (by simp only [weightMembers] at hw ⊢; omega) rfl]
      | (k, v) :: m2 :: r =>
        have hs : stringifyMembers ((k, v) :: m2 :: r) ++ '\x7d' :: rest
            = '"' :: (escapeStr k ++ '"' ::
                (':' :: (jsonStringify v ++ ',' :: (stringifyMembers (m2 :: r)
                  ++ '\x7d' :: rest)))) := by
          simp [stringifyMembers]
        rw [hs, parseMembers_succ_quote, parseStr_escape]
        simp only [ihV v (',' :: (stringifyMembers (m2 :: r) ++ '\x7d' :: rest))
          (by simp only [weightMembers] at hw ⊢; omega) rfl]
        simp only [ihM (m2 :: r) rest (by simp)
          (by simp only [weightMembers] at hw ⊢; omega)]
        rfl

theorem jsonParse_stringify (j : Json) : jsonParse (jsonStringify j) = some j := by
  have h := (parse_stringify ((jsonStringify j).length + 1)).1 j []
    (le_trans (stringify_weight_le j) (by omega)) rfl
  rw [List.append_nil] at h
  simp [jsonParse, h]

/-! ## Integrity and encryption layer

`SyncCore.calculateChecksum` is
`btoa(JSON.stringify(data)).slice(0, 16)`; `EncryptionService.encrypt` is the
identity when disabled and `btoa(JSON.stringify(data))` when enabled;
`EncryptionService.decrypt` is the identity when disabled and
`JSON.parse(atob(data))` with a catch-all returning `data` when enabled.
A result of `none` models a thrown exception propagating to the caller. -/

/-- Model of `SyncCore.calculateChecksum`. -/
def calculateChecksum (data : Json) : Option JStr :=
  (btoa (jsonStringify data)).map (fun s => s.take 16)

namespace EncryptionService

/-- Model of `EncryptionService.encrypt`.  With encryption enabled the result
is a JS string (the base64 text); `Except.error` models the
InvalidCharacterError thrown by `btoa` on non-Latin-1 input. -/
def encrypt (enabled : Bool) (data : Json) : Except JStr Json :=
  if !enabled then .ok data
  else
    match btoa (jsonStringify data) with
    | some s => .ok (.str s)
    | none => .error (js "InvalidCharacterError")

/-- Model of `EncryptionService.decrypt`.  The `try ... catch` returns the
input unchanged whenever `atob` or `JSON.parse` fails; a non-string input
(impossible for an `encrypt` output) is likewise returned unchanged, as the
decode of its JS string coercion never parses as JSON. -/
def decrypt (enabled : Bool) (data : Json) : Json :=
  if !enabled then data
  else
    match data with
    | .str s =>
      match atob s with
      | some t => (jsonParse t).getD (.str s)
      | none => .str s
    | d => d

end EncryptionService

/-- Round-trip of the encryption layer, when encryption is disabled (for all
payloads) or enabled on a payload whose JSON text is Latin-1. -/
theorem decrypt_encrypt_disabled (data : Json) :
    (EncryptionService.encrypt false data).map (EncryptionService.decrypt false)
      = Except.ok data := rfl

theorem decrypt_encrypt_enabled {data : Json}
    (h : (jsonStringify data).all (fun c => c.toNat < 256) = true) :
    (EncryptionService.encrypt true data).map (EncryptionService.decrypt true)
      = Except.ok data := by
  simp only [EncryptionService.encrypt, Bool.not_true, Bool.false_eq_true, if_false,
    reduceIte]
  have hb : btoa (jsonStringify data) = some (encodeBytes ((jsonStringify data).map Char.toNat)) := by
    simp [btoa, h]
  rw [hb]
  simp only [Except.map, EncryptionService.decrypt, Bool.not_true, Bool.false_eq_true,
    if_false, reduceIte]
  rw [atob_btoa hb]
  simp only [jsonParse_stringify, Option.getD_some]

/-! ## Engine data model

Shallow embedding of the interfaces of the sync core.  Field names follow the
source; `ConflictItem.local` is renamed `localItem` (`local` is reserved in
Lean).  `Record<string, T>` fields are association lists. -/

/-- Embedding of the `SyncItem` interface (the optional `userId` is omitted:
no engine code path reads it). -/
structure SyncItem where
  id : JStr
  type : JStr
  action : JStr
  data : Json
  timestamp : Int
  deviceId : JStr
  version : Int
  checksum : JStr
  priority : Int
deriving DecidableEq

/-- Embedding of the `ConflictItem` interface. -/
structure ConflictItem where
  id : JStr
  localItem : SyncItem
  remote : SyncItem
  strategy : JStr
  resolved : Bool
  resolution : Option SyncItem
  timestamp : Int
deriving DecidableEq

/-- Embedding of the `SyncFilter` interface. -/
structure SyncFilter where
  type : JStr
  enabled : Bool
  maxSize : Option Int
  excludePatterns : Option (List JStr)
  includePatterns : Option (List JStr)
deriving DecidableEq

/-- Embedding of the `SyncConfig` interface (provider connection settings are
omitted: the engine only dereferences `provider` as a key). -/
structure SyncConfig where
  enabled : Bool
  provider : JStr
  autoSync : Bool
  syncInterval : Int
  maxHistoryItems : Int
  encryptionEnabled : Bool
  conflictStrategy : JStr
  filters : List SyncFilter
deriving DecidableEq

/-- Embedding of the `DeviceState` interface. -/
structure DeviceState where
  lastSeen : Int
  syncVersion : Int
  pendingAcks : List JStr
  conflicts : Int
deriving DecidableEq

/-- Embedding of the `SyncState` interface — the spec's `EngineState`. -/
structure SyncState where
  lastSync : Int
  pendingItems : List SyncItem
  conflicts : List ConflictItem
  deviceStates : List (JStr × DeviceState)
  syncProvider : JStr
  enabled : Bool
  isOnline : Bool
  isSyncing : Bool
deriving DecidableEq

/-- Events emitted through the engine's `EventEmitter`, with the payloads the
claims inspect. -/
inductive Event where
  | initialized : Event
  | sync_started : Event
  | item_queued (item : SyncItem) : Event
  | item_synced (item : SyncItem) : Event
  | sync_completed (synced pending : Nat) : Event
  | change_applied (item : SyncItem) : Event
  | conflict_detected (conflict : ConflictItem) : Event
  | conflict_resolved (conflict : ConflictItem) : Event
  | error (etype : JStr) : Event
deriving DecidableEq

/-- The key/value item store behind the storage adapter's
`setItem(type, id, data)` / `deleteItem(type, id)`. -/
abbrev Store := List (JStr × JStr × Json)

/-- Modelled from the spec: the storage adapter's `setItem` (absent from
src/, which only declares the `StorageAdapter` interface) — a keyed upsert
into the item store. -/
def setItemStore (t i : JStr) (d : Json) (store : Store) : Store :=
  if store.any (fun e => decide (e.1 = t) && decide (e.2.1 = i)) then
    store.map (fun e => if e.1 = t ∧ e.2.1 = i then (t, i, d) else e)
  else store ++ [(t, i, d)]

/-- Modelled from the spec: the storage adapter's `deleteItem` (absent from
src/) — removal of the keyed entry from the item store. -/
def deleteItemStore (t i : JStr) (store : Store) : Store :=
  store.filter (fun e => !(decide (e.1 = t) && decide (e.2.1 = i)))

namespace SyncCore

/-- Model of `SyncCore.applyChange`: `create`/`update` write the item's data,
`delete` removes it, any other action falls through the `switch`. -/
def applyChange (item : SyncItem) (store : Store) : Store :=
  if item.action = js "create" ∨ item.action = js "update" then
    setItemStore item.type item.id item.data store
  else if item.action = js "delete" then
    deleteItemStore item.type item.id store
  else store

/-- Model of `SyncCore.shouldSync`: the per-type filter gate.  JS string
`length` counts UTF-16 code units; the model counts code points (no claim
exercises astral characters).  `if (filter.maxSize)` skips the size check for
an absent or zero (falsy) limit; an *empty* `includePatterns` array is truthy
in JS and rejects everything, which the model preserves. -/
def shouldSync (cfg : SyncConfig) (item : SyncItem) : Bool :=
  match cfg.filters.find? (fun f => decide (f.type = item.type)) with
  | none => false
  | some filter =>
    if !filter.enabled then false
    else
      let content := jsonStringify item.data
      let sizeOk : Bool :=
        match filter.maxSize with
        | none => true
        | some m => if m = 0 then true else decide ((content.length : Int) ≤ m)
      let excludeOk : Bool :=
        match filter.excludePatterns with
        | none => true
        | some pats => !(pats.any (fun p => decide (p <:+: content)))
      let includeOk : Bool :=
        match filter.includePatterns with
        | none => true
        | some pats => pats.any (fun p => decide (p <:+: content))
      sizeOk && excludeOk && includeOk

/-- Model of `SyncCore.shouldRetry`: retry while `version < 3`. -/
def shouldRetry (item : SyncItem) : Bool := decide (item.version < 3)

/-- The comparator `(a, b) => a.priority - b.priority || a.timestamp -
b.timestamp` as a total Boolean order: priority ascending, then timestamp
ascending. -/
def itemLe (a b : SyncItem) : Bool :=
  decide (a.priority < b.priority ∨ (a.priority = b.priority ∧ a.timestamp ≤ b.timestamp))

/-- Accumulated effects of the delivery loop inside `processPendingItems`. -/
structure LoopResult where
  items : List SyncItem
  succ : List JStr
  events : List Event
  calls : List SyncItem
deriving DecidableEq

/-- The `for (const item of this.state.pendingItems)` delivery loop:
`deliver` is the provider's `syncItem` outcome (`true` = resolved promise).
A success records the id and emits `item_synced`; a failure emits an `error`
of type `item_sync`, then bumps `version` when under the retry cap or records
the id for removal otherwise.  `calls` collects the provider invocations in
order. -/
def deliverLoop (deliver : SyncItem → Bool) : List SyncItem → LoopResult
  | [] => ⟨[], [], [], []⟩
  | item :: rest =>
    if deliver item then
      let r := deliverLoop deliver rest
      ⟨item :: r.items, item.id :: r.succ, .item_synced item :: r.events, item :: r.calls⟩
    else
      let r := deliverLoop deliver rest
      if shouldRetry item then
        ⟨{ item with version := item.version + 1 } :: r.items, r.succ,
          .error (js "item_sync") :: r.events, item :: r.calls⟩
      else
        ⟨item :: r.items, item.id :: r.succ, .error (js "item_sync") :: r.events,
          item :: r.calls⟩

/-- Result of one `processPendingItems` (flush) invocation. -/
structure FlushResult where
  state : SyncState
  events : List Event
  calls : List SyncItem
deriving DecidableEq

/-- Model of `SyncCore.processPendingItems`.  `provider` is
`providers.get(config.provider)` (`none` = not found, whose `throw` is caught
by the method's own `catch`); `now` is the `Date.now()` read for `lastSync`.
The in-place `sort` is modelled by a stable merge sort under the same
comparator. -/
def processPendingItems (cfg : SyncConfig) (provider : Option (SyncItem → Bool)) (now : Int)
    (st : SyncState) : FlushResult :=
  if st.isSyncing || st.pendingItems.isEmpty then ⟨st, [], []⟩
  else
    match provider with
    | none => ⟨{ st with isSyncing := false }, [.sync_started, .error (js "sync_process")], []⟩
    | some deliver =>
      let sorted := st.pendingItems.mergeSort itemLe
      let r := deliverLoop deliver sorted
      let pending' := r.items.filter (fun i => !(r.succ.contains i.id))
      ⟨{ st with pendingItems := pending', lastSync := now, isSyncing := false },
        .sync_started :: r.events ++ [.sync_completed r.succ.length pending'.length],
        r.calls⟩

/-- The caller-supplied part of a `SyncItem`
(`Omit<SyncItem, 'id' | 'timestamp' | 'version' | 'checksum'>`). -/
structure ItemInput where
  type : JStr
  action : JStr
  data : Json
  deviceId : JStr
  priority : Int
deriving DecidableEq

/-- Result of one `syncItem` (enqueue) invocation; `result` is the promise
outcome. -/
structure QueueResult where
  result : Except JStr Unit
  state : SyncState
  events : List Event
  calls : List SyncItem

/-- The `const syncItem: SyncItem = { ...item, id, timestamp, version,
checksum, priority: item.priority || 1 }` construction. -/
def mkItem (now : Int) (freshId : JStr) (input : ItemInput) (cs : JStr) : SyncItem :=
  { id := freshId, type := input.type, action := input.action, data := input.data,
    timestamp := now, deviceId := input.deviceId, version := 1, checksum := cs,
    priority := if input.priority = 0 then 1 else input.priority }

/-- Model of `SyncCore.syncItem`: build the full item (fresh id, `timestamp =
Date.now()`, `version = 1`, checksum of the plaintext data, `priority || 1`),
silently drop it unless `shouldSync` passes, encrypt the data when enabled,
append to the outbox, flush immediately when online and idle, and emit
`item_queued`.  A thrown checksum/encrypt error is re-emitted as an `error`
of type `sync_item` and rethrown. -/
def syncItem (cfg : SyncConfig) (provider : Option (SyncItem → Bool)) (now : Int)
    (freshId : JStr) (st : SyncState) (input : ItemInput) : QueueResult :=
  match calculateChecksum input.data with
  | none => ⟨.error (js "InvalidCharacterError"), st, [.error (js "sync_item")], []⟩
  | some cs =>
    let it : SyncItem := mkItem now freshId input cs
    if !shouldSync cfg it then ⟨.ok (), st, [], []⟩
    else
      match (if cfg.encryptionEnabled then EncryptionService.encrypt true it.data
             else .ok it.data) with
      | .error e => ⟨.error e, st, [.error (js "sync_item")], []⟩
      | .ok d2 =>
        let it2 := { it with data := d2 }
        let st1 := { st with pendingItems := st.pendingItems ++ [it2] }
        if st1.isOnline && !st1.isSyncing then
          let fr := processPendingItems cfg provider now st1
          ⟨.ok (), fr.state, fr.events ++ [.item_queued it2], fr.calls⟩
        else
          ⟨.ok (), st1, [.item_queued it2], []⟩

/-- Model of `SyncCore.detectConflict`: among the stored items matching the
remote item's `{type, id}` query, the first whose checksum differs and whose
timestamp lies within the hardcoded 5000 ms window yields a conflict.
`localItems` is the item-query view of the storage adapter (`getItems`
matches every field of the filter object); `genId` and `now` are the
`generateId()` / `Date.now()` reads. -/
def detectConflict (cfg : SyncConfig) (genId : JStr) (now : Int) (localItems : List SyncItem)
    (remote : SyncItem) : Option ConflictItem :=
  let existingItems := localItems.filter
    (fun l => decide (l.type = remote.type) && decide (l.id = remote.id))
  (existingItems.find?
    (fun l => decide (¬l.checksum = remote.checksum)
      && decide ((l.timestamp - remote.timestamp).natAbs < 5000))).map
    (fun localItem =>
      { id := genId, localItem := localItem, remote := remote,
        strategy := if cfg.conflictStrategy = js "user_choice" then js "manual" else js "auto",
        resolved := false, resolution := none, timestamp := now })

/-- Replace the first list entry satisfying `p` (the mutation of the object
found by `Array.find`). -/
def replaceFirst (p : ConflictItem → Bool) (c' : ConflictItem) :
    List ConflictItem → List ConflictItem
  | [] => []
  | c :: rest => if p c then c' :: rest else c :: replaceFirst p c' rest

/-- Model of `SyncCore.resolveConflict`: look the conflict up by id (throwing
when absent), set its resolution and resolved flag, apply the chosen item to
storage, and emit `conflict_resolved` — with no guard on an already-resolved
conflict. -/
def resolveConflict (cid : JStr) (resolution : SyncItem) (st : SyncState) (store : Store) :
    Except JStr (SyncState × Store × List Event) :=
  match st.conflicts.find? (fun c => decide (c.id = cid)) with
  | none => .error (js "Conflict not found")
  | some c =>
    let c' := { c with resolution := some resolution, resolved := true }
    .ok ({ st with conflicts := replaceFirst (fun x => decide (x.id = cid)) c' st.conflicts },
      applyChange resolution store,
      [Event.conflict_resolved c'])

end SyncCore

/-- Lookup of a key in an object member list (last occurrence wins is
irrelevant here: JS objects cannot carry duplicate keys). -/
def lookupKV (kvs : List (JStr × Json)) (k : JStr) : Option Json :=
  (kvs.find? (fun e => decide (e.1 = k))).map (fun e => e.2)

/-- The object spread `{ ...remote.data, ...local.data }`: remote's keys in
order with local's values winning key-by-key, then local-only keys. -/
def spreadMerge (base over : List (JStr × Json)) : List (JStr × Json) :=
  base.map (fun e => (e.1, (lookupKV over e.1).getD e.2))
    ++ over.filter (fun e => !(base.any (fun b => decide (b.1 = e.1))))

namespace ConflictResolver

/-- Model of `ConflictResolver.attemptMerge`: shallow-merge object payloads
(local wins key-by-key) taking the larger timestamp, last-writer-wins
otherwise.  (JS `typeof` also calls `null` and arrays "object"; no claim
exercises those inputs.) -/
def attemptMerge (localItem remote : SyncItem) : SyncItem :=
  match localItem.data, remote.data with
  | .obj lkv, .obj rkv =>
    { localItem with
      data := .obj (spreadMerge rkv lkv),
      timestamp := max localItem.timestamp remote.timestamp }
  | _, _ => if localItem.timestamp > remote.timestamp then localItem else remote

/-- Model of `ConflictResolver.resolve`: the strategy `switch`.  Under
`device_priority` the source returns `local` unconditionally (its comment
defers the rank logic), and the default case also returns `local`. -/
def resolve (strategy : JStr) (localItem remote : SyncItem) : SyncItem :=
  if strategy = js "last_writer_wins" then
    if localItem.timestamp > remote.timestamp then localItem else remote
  else if strategy = js "device_priority" then localItem
  else if strategy = js "merge" then attemptMerge localItem remote
  else localItem

end ConflictResolver

/-! ## Auxiliary facts about the engine operations -/

theorem deliverLoop_calls (deliver : SyncItem → Bool) :
    ∀ l : List SyncItem, (SyncCore.deliverLoop deliver l).calls = l := by
  intro l
  induction l with
  | nil => rfl
  | cons item rest ih =>
    simp only [SyncCore.deliverLoop]
    by_cases hd : deliver item
    · simp [hd, ih]
    · by_cases hr : SyncCore.shouldRetry item <;> simp [hd, hr, ih]

theorem deliverLoop_no_queued (deliver : SyncItem → Bool) :
    ∀ (l : List SyncItem) (jq : SyncItem),
      Event.item_queued jq ∉ (SyncCore.deliverLoop deliver l).events := by
  intro l
  induction l with
  | nil => intro jq h; simp [SyncCore.deliverLoop] at h
  | cons item rest ih =>
    intro jq h
    simp only [SyncCore.deliverLoop] at h
    by_cases hd : deliver item
    · simp [hd] at h
      exact ih jq h
    · by_cases hr : SyncCore.shouldRetry item <;>
        · simp [hd, hr] at h
          exact ih jq h

theorem processPendingItems_no_queued (cfg : SyncConfig) (provider : Option (SyncItem → Bool))
    (now : Int) (st : SyncState) (jq : SyncItem) :
    Event.item_queued jq ∉ (SyncCore.processPendingItems cfg provider now st).events := by
  simp only [SyncCore.processPendingItems]
  by_cases hg : st.isSyncing || st.pendingItems.isEmpty
  · simp [hg]
  · simp only [hg, Bool.false_eq_true, if_false, reduceIte]
    match provider with
    | none => simp
    | some deliver =>
      simp only []
      intro h
      simp only [List.mem_cons, List.mem_append, List.mem_singleton] at h
      rcases h with (h | h) | h
      · simp at h
      · exact deliverLoop_no_queued deliver _ jq h
      · simp at h

theorem syncItem_queued_fields (cfg : SyncConfig) (provider : Option (SyncItem → Bool))
    (now : Int) (freshId : JStr) (st : SyncState) (input : SyncCore.ItemInput)
    (jq : SyncItem)
    (hq : Event.item_queued jq ∈ (SyncCore.syncItem cfg provider now freshId st input).events) :
    jq.id = freshId ∧ jq.timestamp = now ∧ jq.version = 1 ∧
      calculateChecksum input.data = some jq.checksum ∧
      jq.type = input.type ∧ jq.action = input.action := by
  unfold SyncCore.syncItem at hq
  split at hq
  · simp at hq
  · rename_i cs hcs
    simp only [] at hq
    by_cases hss : (!SyncCore.shouldSync cfg (SyncCore.mkItem now freshId input cs)) = true
    · rw [if_pos hss] at hq
      simp at hq
    · rw [if_neg hss] at hq
      by_cases henc : cfg.encryptionEnabled
      · rw [if_pos henc] at hq
        cases hee : EncryptionService.encrypt true (SyncCore.mkItem now freshId input cs).data with
        | error e =>
          rw [hee] at hq
          simp at hq
        | ok d2 =>
          rw [hee] at hq
          simp only [] at hq
          split at hq
          · simp only [List.mem_append, List.mem_singleton] at hq
            rcases hq with hq | hq
            · exact absurd hq (processPendingItems_no_queued _ _ _ _ _)
            · injection hq with h
              subst h
              exact ⟨rfl, rfl, rfl, hcs, rfl, rfl⟩
          · simp only [List.mem_singleton] at hq
            injection hq with h
            subst h
            exact ⟨rfl, rfl, rfl, hcs, rfl, rfl⟩
      · rw [if_neg henc] at hq
        simp only [] at hq
        split at hq
        · simp only [List.mem_append, List.mem_singleton] at hq
          rcases hq with hq | hq
          · exact absurd hq (processPendingItems_no_queued _ _ _ _ _)
          · injection hq with h
            subst h
            exact ⟨rfl, rfl, rfl, hcs, rfl, rfl⟩
        · simp only [List.mem_singleton] at hq
          injection hq with h
          subst h
          exact ⟨rfl, rfl, rfl, hcs, rfl, rfl⟩

/-! ## Claim C1: re-resolving an already-resolved conflict -/

/-- Concrete local item of the C1 scenario. -/
def c1Local : SyncItem :=
  ⟨js "x1", js "clipboard", js "update", Json.str (js "A"), 8, js "devA", 1, js "cs1", 1⟩

/-- Concrete remote item of the C1 scenario. -/
def c1Remote : SyncItem :=
  ⟨js "x1", js "clipboard", js "update", Json.str (js "B"), 10, js "devB", 1, js "cs2", 1⟩

/-- A conflict that has already been resolved (resolved flag set, resolution
recorded). -/
def c1Conflict : ConflictItem := ⟨js "c1", c1Local, c1Remote, js "auto", true, some c1Remote, 12⟩

/-- Engine state holding only the already-resolved conflict. -/
def c1State : SyncState := ⟨0, [], [c1Conflict], [], js "cloud", true, true, false⟩

/-- C1, counterexample: calling `resolveConflict` a second time on the
already-resolved conflict `c1Conflict` is not a no-op and not an error — it
succeeds, performs the `applyChange` write again (the empty store gains an
entry), and re-emits `conflict_resolved`. -/
theorem C1_counterexample :
    SyncCore.resolveConflict (js "c1") c1Remote c1State [] =
      Except.ok (c1State, [(js "clipboard", js "x1", Json.str (js "B"))],
        [Event.conflict_resolved c1Conflict]) ∧
    [Event.conflict_resolved c1Conflict] ≠ ([] : List Event) ∧
    [(js "clipboard", js "x1", Json.str (js "B"))] ≠ ([] : Store) := by
  refine ⟨rfl, by simp, by simp⟩

/-- C1 (amended): `resolveConflict` does not guard on the resolved flag.  For
any engine state whose conflict list contains a conflict with the requested
id whose `resolved` flag is already true, a second `resolveConflict` call
succeeds again: it re-marks the conflict, performs the `applyChange` write of
the chosen item again, and re-emits `conflict_resolved`; it errors only when
no conflict with that id exists. -/
theorem C1_resolveConflict_unguarded (cid : JStr) (r : SyncItem) (st : SyncState)
    (store : Store) (c : ConflictItem)
    (hfind : st.conflicts.find? (fun x => decide (x.id = cid)) = some c)
    (hres : c.resolved = true) :
    SyncCore.resolveConflict cid r st store =
      Except.ok
        ({ st with conflicts := SyncCore.replaceFirst (fun x => decide (x.id = cid)) ({ c with resolution := some r, resolved := true }) st.conflicts },
          SyncCore.applyChange r store,
          [Event.conflict_resolved ({ c with resolution := some r, resolved := true })]) := by
  simp [SyncCore.resolveConflict, hfind]

/-- C1, witness: the amended theorem applied to the concrete already-resolved
conflict. -/
theorem C1_resolveConflict_unguarded_witness :
    c1Conflict.resolved = true ∧
    SyncCore.resolveConflict (js "c1") c1Remote c1State [] =
      Except.ok (c1State, [(js "clipboard", js "x1", Json.str (js "B"))],
        [Event.conflict_resolved c1Conflict]) := by
  refine ⟨rfl, ?_⟩
  have h := C1_resolveConflict_unguarded (js "c1") c1Remote c1State [] c1Conflict rfl rfl
  exact h.trans (by rfl)

/-! ## Claim C2: the detectConflict characterization -/

/-- A stored item sharing the remote item's id but not its type. -/
def c2Local : SyncItem := ⟨js "a", js "settings", js "update", Json.null, 0, js "d1", 1, js "k1", 1⟩

/-- The incoming remote item of the C2 scenario. -/
def c2Remote : SyncItem :=
  ⟨js "a", js "clipboard", js "update", Json.null, 0, js "d2", 1, js "k2", 1⟩

/-- A configuration with the default strategy and no filters. -/
def c2Config : SyncConfig := ⟨true, js "cloud", true, 300, 1000, false, js "last_writer_wins", []⟩

/-- C2, counterexample: a stored item that shares the remote's id, differs in
checksum, and lies inside the 5000 ms window — yet `detectConflict` returns
null, because its `{type, id}` storage query also requires the types to
match.  The claimed "iff" (which requires only a shared id) is false. -/
theorem C2_counterexample :
    SyncCore.detectConflict c2Config (js "g") 0 [c2Local] c2Remote = none ∧
    (c2Local.id = c2Remote.id ∧ c2Local.checksum ≠ c2Remote.checksum ∧
      (c2Local.timestamp - c2Remote.timestamp).natAbs < 5000) := by
  exact ⟨rfl, by decide, by decide⟩

/-- C2 (amended): `detectConflict` returns a conflict iff some locally stored
item shares the remote item's type *and* id, has a different checksum, and
lies within the 5000 ms window. -/
theorem C2_detectConflict_iff (cfg : SyncConfig) (genId : JStr) (now : Int)
    (localItems : List SyncItem) (remote : SyncItem) :
    (SyncCore.detectConflict cfg genId now localItems remote).isSome = true ↔
      ∃ l ∈ localItems, l.type = remote.type ∧ l.id = remote.id ∧
        l.checksum ≠ remote.checksum ∧ (l.timestamp - remote.timestamp).natAbs < 5000 := by
  simp only [SyncCore.detectConflict, Option.isSome_map']
  rw [show ∀ (l : List SyncItem) (p : SyncItem → Bool),
      ((l.find? p).isSome = true) = ∃ x ∈ l, p x from fun l p => by
    simp [List.find?_isSome]]
  constructor
  · rintro ⟨l, hl, hp⟩
    rw [List.mem_filter] at hl
    simp only [Bool.and_eq_true, decide_eq_true_eq] at hl hp
    exact ⟨l, hl.1, hl.2.1, hl.2.2, hp.1, hp.2⟩
  · rintro ⟨l, hl, h1, h2, h3, h4⟩
    refine ⟨l, List.mem_filter.mpr ⟨hl, ?_⟩, ?_⟩ <;>
      simp [h1, h2, h3, h4]

/-! ## Claim C4: the device_priority strategy -/

/-- A local item from the lower-priority device, older timestamp. -/
def c4Local : SyncItem :=
  ⟨js "y", js "clipboard", js "update", Json.str (js "old"), 100, js "phone", 1, js "k1", 1⟩

/-- A remote item from the higher-priority device, newer timestamp. -/
def c4Remote : SyncItem :=
  ⟨js "y", js "clipboard", js "update", Json.str (js "new"), 200, js "desktop", 1, js "k2", 1⟩

/-- C4: evaluation of the code at the failing input.  Under the
`device_priority` strategy the resolver returns the local item
unconditionally — the items' originating devices and timestamps are ignored
(note `SyncItem` does not even carry a device priority rank, and the resolver
has no access to the device table), so the remote item wins neither by rank
nor by the last-writer-wins tiebreak the claim requires. -/
theorem C4_device_priority_returns_local :
    ConflictResolver.resolve (js "device_priority") c4Local c4Remote = c4Local ∧
    c4Local.timestamp < c4Remote.timestamp ∧ c4Local.deviceId ≠ c4Remote.deviceId := by
  exact ⟨rfl, by decide, by decide⟩

/-! ## Claims C5, C8, C10: item creation, checksum, filtering -/

theorem shouldSync_false_of_unfiltered (cfg : SyncConfig) (item : SyncItem)
    (h : cfg.filters.find? (fun f => decide (f.type = item.type)) = none ∨
      ∃ f, cfg.filters.find? (fun f2 => decide (f2.type = item.type)) = some f ∧
        f.enabled = false) :
    SyncCore.shouldSync cfg item = false := by
  unfold SyncCore.shouldSync
  rcases h with h | ⟨f, hf, henb⟩
  · rw [h]
  · rw [hf]
    simp [henb]

theorem syncItem_silent_of_unfiltered (cfg : SyncConfig)
    (provider : Option (SyncItem → Bool)) (now : Int) (freshId : JStr) (st : SyncState)
    (input : SyncCore.ItemInput)
    (hcs : (calculateChecksum input.data).isSome = true)
    (h : cfg.filters.find? (fun f => decide (f.type = input.type)) = none ∨
      ∃ f, cfg.filters.find? (fun f2 => decide (f2.type = input.type)) = some f ∧
        f.enabled = false) :
    SyncCore.syncItem cfg provider now freshId st input = ⟨Except.ok (), st, [], []⟩ := by
  unfold SyncCore.syncItem
  match hcs' : calculateChecksum input.data with
  | none => rw [hcs'] at hcs; simp at hcs
  | some cs =>
    have hss : SyncCore.shouldSync cfg (SyncCore.mkItem now freshId input cs) = false :=
      shouldSync_false_of_unfiltered cfg _ h
    simp [hss]

/-- A configuration with a single enabled filter for `clipboard`. -/
def c5Config : SyncConfig :=
  ⟨true, js "cloud", true, 300, 1000, false, js "last_writer_wins",
    [⟨js "clipboard", true, none, none, none⟩]⟩

/-- An online, idle engine state with an empty outbox. -/
def c5State : SyncState := ⟨0, [], [], [], js "cloud", true, true, false⟩

/-- An offline, idle engine state with an empty outbox. -/
def c5OffState : SyncState := ⟨0, [], [], [], js "cloud", true, false, false⟩

/-- An input whose type is outside the recognized enumeration. -/
def c5BogusType : SyncCore.ItemInput := ⟨js "bogus", js "create", Json.null, js "dev", 1⟩

/-- An input whose action is outside the recognized enumeration. -/
def c5BogusAction : SyncCore.ItemInput := ⟨js "clipboard", js "frobnicate", Json.null, js "dev", 1⟩

/-- A well-formed clipboard input. -/
def c5GoodInput : SyncCore.ItemInput := ⟨js "clipboard", js "create", Json.null, js "dev", 1⟩

/-- The item the engine enqueues for `c5GoodInput` (checksum =
`btoa("null").slice(0, 16)` = `"bnVsbA=="`). -/
def c5Queued : SyncItem :=
  ⟨js "w5", js "clipboard", js "create", Json.null, 3, js "dev", 1, js "bnVsbA==", 1⟩

/-- C5, counterexample: `syncItem` does not fail on an unrecognized type or
action.  A type outside the enumeration is silently discarded (success, no
event, no enqueue), and an unrecognized action on a recognized type is
enqueued without complaint — the enumerations are enforced only by the static
type system. -/
theorem C5_counterexample :
    SyncCore.syncItem c5Config none 0 (js "id1") c5State c5BogusType =
      ⟨Except.ok (), c5State, [], []⟩ ∧
    (SyncCore.syncItem c5Config none 0 (js "id2") c5OffState c5BogusAction).result
      = Except.ok () := by
  exact ⟨rfl, rfl⟩

/-- C5 (amended): `syncItem` assigns every queued item the fresh id, a
`Date.now()` timestamp, `version = 1`, and the fingerprint of the payload as
checksum; but an unrecognized `type` or `action` is not rejected at runtime —
the enumerations are static types only, and a type without a filter entry is
silently discarded by the filter step rather than failing. -/
theorem C5_createItem_fields_no_validation :
    (∀ (cfg : SyncConfig) (provider : Option (SyncItem → Bool)) (now : Int) (freshId : JStr)
      (st : SyncState) (input : SyncCore.ItemInput) (jq : SyncItem),
      Event.item_queued jq ∈ (SyncCore.syncItem cfg provider now freshId st input).events →
        jq.id = freshId ∧ jq.timestamp = now ∧ jq.version = 1 ∧
          calculateChecksum input.data = some jq.checksum) ∧
    (∀ (cfg : SyncConfig) (provider : Option (SyncItem → Bool)) (now : Int) (freshId : JStr)
      (st : SyncState) (input : SyncCore.ItemInput),
      (calculateChecksum input.data).isSome = true →
      cfg.filters.find? (fun f => decide (f.type = input.type)) = none →
        SyncCore.syncItem cfg provider now freshId st input = ⟨Except.ok (), st, [], []⟩) := by
  constructor
  · intro cfg provider now freshId st input jq hq
    obtain ⟨h1, h2, h3, h4, _, _⟩ := syncItem_queued_fields cfg provider now freshId st input jq hq
    exact ⟨h1, h2, h3, h4⟩
  · intro cfg provider now freshId st input hcs hfind
    exact syncItem_silent_of_unfiltered cfg provider now freshId st input hcs (Or.inl hfind)

/-- C5, witness: a concrete enqueue (offline, so no flush is involved): the
queued item carries the fresh id, the supplied clock value, version 1, and
the plaintext fingerprint; and a concrete unknown-type enqueue is silently
accepted. -/
theorem C5_createItem_fields_no_validation_witness :
    (Event.item_queued c5Queued
      ∈ (SyncCore.syncItem c5Config none 3 (js "w5") c5OffState c5GoodInput).events) ∧
    c5Queued.id = js "w5" ∧ c5Queued.timestamp = 3 ∧ c5Queued.version = 1 ∧
      calculateChecksum c5GoodInput.data = some c5Queued.checksum ∧
    SyncCore.syncItem c5Config none 0 (js "id1") c5State c5BogusType
      = ⟨Except.ok (), c5State, [], []⟩ := by
  have hm : Event.item_queued c5Queued
      ∈ (SyncCore.syncItem c5Config none 3 (js "w5") c5OffState c5GoodInput).events := by
    decide
  have h := C5_createItem_fields_no_validation.1 c5Config none 3 (js "w5") c5OffState
    c5GoodInput c5Queued hm
  have h2 := C5_createItem_fields_no_validation.2 c5Config none 0 (js "id1") c5State
    c5BogusType (by decide) (by decide)
  exact ⟨hm, h.1, h.2.1, h.2.2.1, h.2.2.2, h2⟩

/-- C8: the checksum of every item accepted into the outbox is the
fingerprint of the plaintext payload, independently of the encryption flag:
the same input queued under encryption-on and encryption-off configurations
yields items with the identical checksum `fingerprint(plaintext)` (the
checksum is computed before the payload is encrypted). -/
theorem C8_checksum_plaintext_independent :
    ∀ (cfg : SyncConfig) (provider : Option (SyncItem → Bool)) (now : Int) (freshId : JStr)
      (st : SyncState) (input : SyncCore.ItemInput) (jq1 jq2 : SyncItem),
      Event.item_queued jq1 ∈
        (SyncCore.syncItem { cfg with encryptionEnabled := true }
          provider now freshId st input).events →
      Event.item_queued jq2 ∈
        (SyncCore.syncItem { cfg with encryptionEnabled := false }
          provider now freshId st input).events →
      calculateChecksum input.data = some jq1.checksum ∧ jq1.checksum = jq2.checksum := by
  intro cfg provider now freshId st input jq1 jq2 h1 h2
  obtain ⟨_, _, _, hc1, _, _⟩ := syncItem_queued_fields _ provider now freshId st input jq1 h1
  obtain ⟨_, _, _, hc2, _, _⟩ := syncItem_queued_fields _ provider now freshId st input jq2 h2
  refine ⟨hc1, ?_⟩
  rw [hc1] at hc2
  exact (Option.some.injEq _ _).mp hc2

/-- The item queued in the C8 witness under encryption: the payload is the
base64 text of the plaintext, the checksum is still the plaintext
fingerprint. -/
def c8QueuedEnc : SyncItem :=
  ⟨js "w8", js "clipboard", js "create", Json.str (js "bnVsbA=="), 3, js "dev", 1,
    js "bnVsbA==", 1⟩

/-- The item queued in the C8 witness without encryption. -/
def c8QueuedPlain : SyncItem :=
  ⟨js "w8", js "clipboard", js "create", Json.null, 3, js "dev", 1, js "bnVsbA==", 1⟩

/-- C8, witness: the same concrete input queued under encryption-on and
encryption-off configurations; both queued items carry the plaintext
fingerprint. -/
theorem C8_checksum_plaintext_independent_witness :
    (Event.item_queued c8QueuedEnc
      ∈ (SyncCore.syncItem { c5Config with encryptionEnabled := true }
          none 3 (js "w8") c5OffState c5GoodInput).events) ∧
    (Event.item_queued c8QueuedPlain
      ∈ (SyncCore.syncItem { c5Config with encryptionEnabled := false }
          none 3 (js "w8") c5OffState c5GoodInput).events) ∧
    calculateChecksum c5GoodInput.data = some c8QueuedEnc.checksum ∧
    c8QueuedEnc.checksum = c8QueuedPlain.checksum := by
  have h1 : Event.item_queued c8QueuedEnc
      ∈ (SyncCore.syncItem { c5Config with encryptionEnabled := true }
          none 3 (js "w8") c5OffState c5GoodInput).events := by decide
  have h2 : Event.item_queued c8QueuedPlain
      ∈ (SyncCore.syncItem { c5Config with encryptionEnabled := false }
          none 3 (js "w8") c5OffState c5GoodInput).events := by decide
  have h := C8_checksum_plaintext_independent c5Config none 3 (js "w8") c5OffState
    c5GoodInput c8QueuedEnc c8QueuedPlain h1 h2
  exact ⟨h1, h2, h.1, h.2⟩

/-- C10 (amended): for an item whose payload checksum computes (its JSON text
is Latin-1, so `btoa` does not throw), a type with no filter entry, or a
disabled filter entry, is silently discarded by `syncItem`: the call
succeeds, the outbox and the rest of the state are untouched, no event is
emitted and no provider call is made — absence of a filter means the type is
never synced (default-deny).  The silence is not unconditional: the checksum
is computed before the filter check, so a non-Latin-1 payload makes
`syncItem` raise even for an unfiltered type (see the counterexample). -/
theorem C10_filter_default_deny :
    ∀ (cfg : SyncConfig) (provider : Option (SyncItem → Bool)) (now : Int) (freshId : JStr)
      (st : SyncState) (input : SyncCore.ItemInput),
      (calculateChecksum input.data).isSome = true →
      (cfg.filters.find? (fun f => decide (f.type = input.type)) = none ∨
        ∃ f, cfg.filters.find? (fun f2 => decide (f2.type = input.type)) = some f ∧
          f.enabled = false) →
      SyncCore.syncItem cfg provider now freshId st input = ⟨Except.ok (), st, [], []⟩ :=
  fun cfg provider now freshId st input hcs h =>
    syncItem_silent_of_unfiltered cfg provider now freshId st input hcs h

/-- A configuration whose only `cache` filter entry is disabled. -/
def c10Config : SyncConfig :=
  ⟨true, js "cloud", true, 300, 1000, false, js "last_writer_wins",
    [⟨js "cache", false, none, none, none⟩]⟩

/-- A cache-typed input hitting the disabled filter entry. -/
def c10Input : SyncCore.ItemInput := ⟨js "cache", js "create", Json.null, js "dev", 1⟩

/-- C10, witness: a disabled filter entry silently discards the item; a type
with no entry at all is likewise discarded. -/
theorem C10_filter_default_deny_witness :
    SyncCore.syncItem c10Config none 0 (js "id3") c5State c10Input
      = ⟨Except.ok (), c5State, [], []⟩ ∧
    SyncCore.syncItem c10Config none 0 (js "id4") c5State c5BogusType
      = ⟨Except.ok (), c5State, [], []⟩ := by
  constructor
  · exact C10_filter_default_deny c10Config none 0 (js "id3") c5State c10Input (by decide)
      (Or.inr ⟨⟨js "cache", false, none, none, none⟩, by decide, rfl⟩)
  · exact C10_filter_default_deny c10Config none 0 (js "id4") c5State c5BogusType (by decide)
      (Or.inl (by decide))

/-- A payload whose JSON text contains a code point above U+00FF (the euro
sign), on which WHATWG `btoa` throws `InvalidCharacterError`. -/
def euroPayload : Json := Json.str [Char.ofNat 8364]

/-- A cache-typed input (disabled filter entry) whose payload contains a code
point above U+00FF, on which the checksum's `btoa` throws. -/
def c10EuroInput : SyncCore.ItemInput := ⟨js "cache", js "create", euroPayload, js "dev", 1⟩

/-- C10, counterexample to the claim as stated: the `cache` filter entry is
disabled, so the claim demands a silent discard with no error — but the
checksum is computed before the filter is consulted, so on a payload whose
JSON text is not Latin-1 `btoa` throws, `syncItem` rejects with
`InvalidCharacterError` and emits an `error` event of type `sync_item`: an
error IS raised for an item of a filtered-out type. -/
theorem C10_counterexample :
    c10Config.filters.find? (fun f => decide (f.type = c10EuroInput.type))
      = some ⟨js "cache", false, none, none, none⟩ ∧
    SyncCore.syncItem c10Config none 0 (js "id5") c5State c10EuroInput
      = ⟨Except.error (js "InvalidCharacterError"), c5State,
          [Event.error (js "sync_item")], []⟩ ∧
    (SyncCore.syncItem c10Config none 0 (js "id5") c5State c10EuroInput).events
      ≠ ([] : List Event) := by
  refine ⟨by decide, rfl, by decide⟩

/-! ## Claims C6, C9: flush gating and delivery order -/

/-- C6 (amended): a flush is a no-op while one is already in progress
(`isSyncing` gate, checked by `processPendingItems` itself), and the offline
case is guarded at the call sites — `syncItem`'s immediate flush makes no
provider call while offline.  `processPendingItems` invoked directly on an
offline state, however, does proceed (see the counterexample). -/
theorem C6_flush_gates :
    (∀ (cfg : SyncConfig) (provider : Option (SyncItem → Bool)) (now : Int) (st : SyncState),
      st.isSyncing = true →
      SyncCore.processPendingItems cfg provider now st = ⟨st, [], []⟩) ∧
    (∀ (cfg : SyncConfig) (provider : Option (SyncItem → Bool)) (now : Int) (freshId : JStr)
      (st : SyncState) (input : SyncCore.ItemInput),
      st.isOnline = false →
      (SyncCore.syncItem cfg provider now freshId st input).calls = []) := by
  constructor
  · intro cfg provider now st h
    simp [SyncCore.processPendingItems, h]
  · intro cfg provider now freshId st input h
    unfold SyncCore.syncItem
    split
    · rfl
    · rename_i cs hcs
      simp only []
      by_cases hss : (!SyncCore.shouldSync cfg (SyncCore.mkItem now freshId input cs)) = true
      · rw [if_pos hss]
      · rw [if_neg hss]
        by_cases henc : cfg.encryptionEnabled
        · rw [if_pos henc]
          cases hee : EncryptionService.encrypt true (SyncCore.mkItem now freshId input cs).data with
          | error e => rfl
          | ok d2 =>
            simp only []
            rw [if_neg (by simp [h])]
        · rw [if_neg henc]
          simp only []
          rw [if_neg (by simp [h])]

/-- The pending item of the C6 counterexample. -/
def c6Item : SyncItem := ⟨js "i1", js "clipboard", js "create", Json.null, 1, js "dev", 1, js "k", 1⟩

/-- An offline, idle state with that one pending item. -/
def c6State : SyncState := ⟨0, [c6Item], [], [], js "cloud", true, false, false⟩

unseal List.merge List.mergeSort in
/-- C6, counterexample: `processPendingItems` invoked directly while offline
(`isOnline = false`, `isSyncing = false`, non-empty outbox) is *not* a no-op:
it makes a provider call, empties the outbox and advances `lastSync` — the
offline check lives only in the callers. -/
theorem C6_counterexample :
    SyncCore.processPendingItems c2Config (some (fun _ => true)) 5 c6State =
      ⟨⟨5, [], [], [], js "cloud", true, false, false⟩,
        [Event.sync_started, Event.item_synced c6Item, Event.sync_completed 1 0], [c6Item]⟩ ∧
    c6State.isOnline = false ∧
    [c6Item] ≠ ([] : List SyncItem) ∧
    (5 : Int) ≠ c6State.lastSync := by
  refine ⟨by decide, rfl, by simp, by decide⟩

/-- C6, witness: the no-op half applied to a concrete mid-flush state. -/
theorem C6_flush_gates_witness :
    SyncCore.processPendingItems c2Config (some (fun _ => true)) 5
        ⟨0, [c6Item], [], [], js "cloud", true, true, true⟩ =
      ⟨⟨0, [c6Item], [], [], js "cloud", true, true, true⟩, [], []⟩ ∧
    (SyncCore.syncItem c5Config none 3 (js "w6") c5OffState c5GoodInput).calls = [] := by
  constructor
  · exact C6_flush_gates.1 c2Config (some (fun _ => true)) 5
      ⟨0, [c6Item], [], [], js "cloud", true, true, true⟩ rfl
  · exact C6_flush_gates.2 c5Config none 3 (js "w6") c5OffState c5GoodInput rfl

theorem itemLe_trans : ∀ a b c : SyncItem, SyncCore.itemLe a b = true →
    SyncCore.itemLe b c = true → SyncCore.itemLe a c = true := by
  intro a b c hab hbc
  simp only [SyncCore.itemLe, decide_eq_true_eq] at *
  omega

theorem itemLe_total : ∀ a b : SyncItem,
    (SyncCore.itemLe a b || SyncCore.itemLe b a) = true := by
  intro a b
  simp only [SyncCore.itemLe, Bool.or_eq_true, decide_eq_true_eq]
  omega

/-- C9: within one flush cycle over a non-empty outbox the delivery attempts
made through the provider are exactly the pending items (a permutation of
the outbox), issued sequentially in order of ascending priority and, within
equal priority, ascending timestamp. -/
theorem C9_flush_delivery_order :
    ∀ (cfg : SyncConfig) (deliver : SyncItem → Bool) (now : Int) (st : SyncState),
      st.isSyncing = false → st.pendingItems ≠ [] →
      (SyncCore.processPendingItems cfg (some deliver) now st).calls.Perm st.pendingItems ∧
      List.Pairwise
        (fun a b => a.priority < b.priority ∨ (a.priority = b.priority ∧ a.timestamp ≤ b.timestamp))
        (SyncCore.processPendingItems cfg (some deliver) now st).calls := by
  intro cfg deliver now st hs hne
  have hguard : (st.isSyncing || st.pendingItems.isEmpty) = false := by
    simp [hs, List.isEmpty_iff, hne]
  simp only [SyncCore.processPendingItems, hguard, Bool.false_eq_true, if_false, reduceIte]
  simp only [deliverLoop_calls]
  constructor
  · exact List.mergeSort_perm st.pendingItems SyncCore.itemLe
  · have hp := List.sorted_mergeSort itemLe_trans itemLe_total st.pendingItems
    exact hp.imp (fun {a b} h => by
      simpa [SyncCore.itemLe, decide_eq_true_eq] using h)

/-- Two out-of-order pending items for the C9 witness. -/
def c9ItemLate : SyncItem :=
  ⟨js "p2", js "clipboard", js "create", Json.null, 9, js "dev", 1, js "k2", 2⟩

/-- The higher-priority (lower value) item of the C9 witness. -/
def c9ItemFirst : SyncItem :=
  ⟨js "p1", js "clipboard", js "create", Json.null, 7, js "dev", 1, js "k1", 1⟩

/-- An idle online state whose outbox is not yet sorted. -/
def c9State : SyncState := ⟨0, [c9ItemLate, c9ItemFirst], [], [], js "cloud", true, true, false⟩

/-- C9, witness: the ordering theorem at a concrete two-item outbox. -/
theorem C9_flush_delivery_order_witness :
    (SyncCore.processPendingItems c2Config (some (fun _ => true)) 5 c9State).calls.Perm
      c9State.pendingItems ∧
    List.Pairwise
      (fun a b => a.priority < b.priority ∨ (a.priority = b.priority ∧ a.timestamp ≤ b.timestamp))
      (SyncCore.processPendingItems c2Config (some (fun _ => true)) 5 c9State).calls := by
  exact C9_flush_delivery_order c2Config (fun _ => true) 5 c9State rfl (by simp [c9State])

/-! ## Claim C3: failed deliveries, retries and the drop -/

theorem flush_fail_singleton (cfg : SyncConfig) (now : Int) (st : SyncState) (i : SyncItem)
    (hs : st.isSyncing = false) (hp : st.pendingItems = [i]) :
    SyncCore.processPendingItems cfg (some (fun _ => false)) now st =
      if i.version < 3 then
        ⟨{ st with pendingItems := [({ i with version := i.version + 1 })], lastSync := now, isSyncing := false },
          [Event.sync_started, Event.error (js "item_sync"), Event.sync_completed 0 1], [i]⟩
      else
        ⟨{ st with pendingItems := [], lastSync := now, isSyncing := false },
          [Event.sync_started, Event.error (js "item_sync"), Event.sync_completed 1 0], [i]⟩ := by
  have hsort : st.pendingItems.mergeSort SyncCore.itemLe = [i] := by
    rw [hp]
    exact List.mergeSort_of_sorted (by simp)
  have hguard : (st.isSyncing || st.pendingItems.isEmpty) = false := by simp [hs, hp]
  simp only [SyncCore.processPendingItems, hguard, Bool.false_eq_true, if_false, reduceIte,
    hsort]
  by_cases hv : i.version < 3
  · rw [if_pos hv]
    simp only [SyncCore.deliverLoop, SyncCore.shouldRetry, Bool.false_eq_true, if_false,
      reduceIte, decide_eq_true_eq, hv, if_true]
    simp [List.filter]
  · rw [if_neg hv]
    simp only [SyncCore.deliverLoop, SyncCore.shouldRetry, Bool.false_eq_true, if_false,
      reduceIte, decide_eq_true_eq, hv]
    simp [List.filter]

/-- C3 (amended): every failed delivery fires an `error` event (of type
`item_sync`), including those that lead to a retry; an item under the cap
(`version < 3`) has its version bumped and stays pending, one at the cap is
removed.  An item starting at version 1 whose deliveries always fail is
therefore gone from the outbox after its *3rd* consecutive failure — a 4th
provider call never happens — and by then exactly three error events have
fired for it, not one, with no additional distinguished event at drop time. -/
theorem C3_retry_then_drop :
    ∀ (cfg : SyncConfig) (now1 now2 now3 : Int) (st : SyncState) (i : SyncItem),
      st.isSyncing = false → st.pendingItems = [i] → i.version = 1 →
      (SyncCore.processPendingItems cfg (some (fun _ => false)) now1 st).state.pendingItems
          = [({ i with version := 2 })] ∧
      (SyncCore.processPendingItems cfg (some (fun _ => false)) now2
          (SyncCore.processPendingItems cfg (some (fun _ => false)) now1 st).state).state.pendingItems
          = [({ i with version := 3 })] ∧
      (SyncCore.processPendingItems cfg (some (fun _ => false)) now3
          (SyncCore.processPendingItems cfg (some (fun _ => false)) now2
            (SyncCore.processPendingItems cfg (some (fun _ => false)) now1 st).state).state).state.pendingItems
          = [] ∧
      ((SyncCore.processPendingItems cfg (some (fun _ => false)) now1 st).events ++
        (SyncCore.processPendingItems cfg (some (fun _ => false)) now2
          (SyncCore.processPendingItems cfg (some (fun _ => false)) now1 st).state).events ++
        (SyncCore.processPendingItems cfg (some (fun _ => false)) now3
          (SyncCore.processPendingItems cfg (some (fun _ => false)) now2
            (SyncCore.processPendingItems cfg (some (fun _ => false)) now1 st).state).state).events).count
          (Event.error (js "item_sync")) = 3 := by
  intro cfg now1 now2 now3 st i hs hp hv
  obtain ⟨iid, ity, iac, ida, its, idev, iver, ichk, ipr⟩ := i
  have hv' : iver = 1 := hv
  subst hv'
  have h1 := flush_fail_singleton cfg now1 st ⟨iid, ity, iac, ida, its, idev, 1, ichk, ipr⟩ hs hp
  rw [if_pos (by norm_num)] at h1
  dsimp only at h1
  have h2 := flush_fail_singleton cfg now2
    (SyncCore.processPendingItems cfg (some (fun _ => false)) now1 st).state
    ⟨iid, ity, iac, ida, its, idev, 2, ichk, ipr⟩
    (by rw [h1]) (by rw [h1]; rfl)
  rw [if_pos (by norm_num)] at h2
  dsimp only at h2
  have h3 := flush_fail_singleton cfg now3
    (SyncCore.processPendingItems cfg (some (fun _ => false)) now2
      (SyncCore.processPendingItems cfg (some (fun _ => false)) now1 st).state).state
    ⟨iid, ity, iac, ida, its, idev, 3, ichk, ipr⟩
    (by rw [h2]) (by rw [h2]; rfl)
  rw [if_neg (by norm_num)] at h3
  refine ⟨?_, ?_, ?_, ?_⟩
  · rw [h1]; rfl
  · rw [h2]; rfl
  · rw [h3]
  · rw [h3, h2, h1]
    dsimp only
    decide

/-- Concrete item `"x3"` for the retry scenario. -/
def c3Item : SyncItem := ⟨js "x3", js "clipboard", js "create", Json.null, 1, js "dev", 1, js "k", 1⟩

/-- Concrete state with `"x3"` pending and no flush in flight. -/
def c3State : SyncState := ⟨0, [c3Item], [], [], js "cloud", true, true, false⟩

/-- First flush cycle against an always-failing provider. -/
def c3Run1 : SyncCore.FlushResult := SyncCore.processPendingItems c2Config (some (fun _ => false)) 10 c3State

/-- Second flush cycle. -/
def c3Run2 : SyncCore.FlushResult := SyncCore.processPendingItems c2Config (some (fun _ => false)) 20 c3Run1.state

/-- Third flush cycle. -/
def c3Run3 : SyncCore.FlushResult := SyncCore.processPendingItems c2Config (some (fun _ => false)) 30 c3Run2.state

/-- Fourth flush cycle. -/
def c3Run4 : SyncCore.FlushResult := SyncCore.processPendingItems c2Config (some (fun _ => false)) 40 c3Run3.state

unseal List.merge List.mergeSort in
/-- C3, counterexample to the claim as stated: delivery of `"x3"` fails in
three consecutive flush cycles, after which the item is gone from the outbox
(a 4th provider call for it never happens), yet *three* `error` events of
type `item_sync` have fired — not exactly one — and none of them is a
distinguished `DeliveryFailure` drop event. -/
theorem C3_counterexample :
    c3Run3.state.pendingItems = [] ∧
    c3Run4.calls = [] ∧
    (c3Run1.events ++ c3Run2.events ++ c3Run3.events).count (Event.error (js "item_sync")) = 3 ∧
    ¬ (c3Run1.events ++ c3Run2.events ++ c3Run3.events).count (Event.error (js "item_sync")) = 1 := by
  refine ⟨by decide, by decide, by decide, by decide⟩

/-- C3, witness: the amended theorem applied to `"x3"` — after the first
failing cycle the item is still pending at version 2. -/
theorem C3_retry_then_drop_witness :
    (SyncCore.processPendingItems c2Config (some (fun _ => false)) 10 c3State).state.pendingItems
      = [({ c3Item with version := 2 })] :=
  (C3_retry_then_drop c2Config 10 20 30 c3State c3Item rfl rfl rfl).1

/-- C7, counterexample to the claim as stated: with encryption enabled,
`encrypt` on a payload whose JSON text is not Latin-1 throws
(`btoa` raises `InvalidCharacterError`), so `decrypt (encrypt payload)`
does not return the payload — the round-trip law fails for this payload. -/
theorem C7_counterexample :
    EncryptionService.encrypt true euroPayload = Except.error (js "InvalidCharacterError") ∧
    ¬ ((EncryptionService.encrypt true euroPayload).map (EncryptionService.decrypt true)
        = Except.ok euroPayload) := by
  have he : EncryptionService.encrypt true euroPayload
      = Except.error (js "InvalidCharacterError") := rfl
  refine ⟨he, ?_⟩
  rw [he]
  intro h
  simp [Except.map] at h

/-- C7 (amended): `decrypt (encrypt payload) = payload` holds for every
payload when encryption is disabled (both functions are the identity), and,
when encryption is enabled, for every payload whose JSON text is Latin-1
(every character below U+0100) — the domain on which `btoa` is defined. -/
theorem C7_roundtrip :
    (∀ data : Json,
      (EncryptionService.encrypt false data).map (EncryptionService.decrypt false)
        = Except.ok data) ∧
    (∀ data : Json, (jsonStringify data).all (fun c => c.toNat < 256) = true →
      (EncryptionService.encrypt true data).map (EncryptionService.decrypt true)
        = Except.ok data) :=
  ⟨decrypt_encrypt_disabled, fun _ h => decrypt_encrypt_enabled h⟩

/-- C7, witness: the round-trip at a concrete Latin-1 object payload with
encryption enabled, and at the euro payload with encryption disabled. -/
theorem C7_roundtrip_witness :
    (EncryptionService.encrypt true (Json.obj [(js "a", Json.num 1)])).map
        (EncryptionService.decrypt true)
      = Except.ok (Json.obj [(js "a", Json.num 1)]) ∧
    (EncryptionService.encrypt false euroPayload).map (EncryptionService.decrypt false)
      = Except.ok euroPayload :=
  ⟨C7_roundtrip.2 (Json.obj [(js "a", Json.num 1)]) (by decide),
   C7_roundtrip.1 euroPayload⟩
